import Mathlib

/-!
Verification development for the AI-content screener's detector evaluation
script (`scripts/test_detector_on_dataset.py`).  Strings are modelled as
`List Char`; Python `float` is modelled as `ℝ` (so IEEE rounding is
abstracted away and decimal literals denote exact rationals); machine
integers are `Nat`/`Int` with explicit `% 2 ^ 32` where the source masks
with `0xFFFFFFFF`; fallible code returns `Except`.
Python's `str.lower` is modelled by its ASCII case mapping
(`Char.toLower`), which is the fragment relevant to the properties below.
-/

/-- The character class of the regex `[ \t\f\v]+` used by `normalize_text`:
space, tab, form feed and vertical tab.  Note this does NOT contain
newline or carriage return. -/
def isSubWs (c : Char) : Bool :=
  c.toNat = 32 || c.toNat = 9 || c.toNat = 12 || c.toNat = 11

/-- The whitespace set of Python's `str.strip()` / `str.isspace()`:
ASCII whitespace, the C1 separators, NEL, NBSP and the Unicode space
separators. -/
def isPyWs (c : Char) : Bool :=
  c.toNat = 32 || (9 ≤ c.toNat && c.toNat ≤ 13) ||
  (28 ≤ c.toNat && c.toNat ≤ 31) ||
  c.toNat = 0x85 || c.toNat = 0xa0 || c.toNat = 0x1680 ||
  (0x2000 ≤ c.toNat && c.toNat ≤ 0x200a) ||
  c.toNat = 0x2028 || c.toNat = 0x2029 || c.toNat = 0x202f ||
  c.toNat = 0x205f || c.toNat = 0x3000

/-- `value.replace(" ", " ")` at the character level. -/
def nbspToSpace (c : Char) : Char :=
  if c.toNat = 0xa0 then ' ' else c

/-- Left-to-right run collapser implementing `re.sub(r"[ \t\f\v]+", " ", s)`:
the flag records whether we are inside a run already replaced by a space. -/
def collapseAux : Bool → List Char → List Char
  | _, [] => []
  | inRun, c :: cs =>
    if isSubWs c then
      if inRun then collapseAux true cs
      else ' ' :: collapseAux true cs
    else c :: collapseAux false cs

/-- `re.sub(r"[ \t\f\v]+", " ", s)`: every maximal run of space, tab,
form feed, vertical tab becomes a single ASCII space. -/
def collapseWs (l : List Char) : List Char :=
  collapseAux false l

/-- Drop trailing characters satisfying `p` (the right half of
Python's `str.strip()`), formulated structurally via `foldr`. -/
def dropTrailing (p : Char → Bool) (l : List Char) : List Char :=
  l.foldr (fun c acc => if acc = [] ∧ p c then [] else c :: acc) []

/-- Python `str.strip()`: remove leading and trailing whitespace. -/
def pyStrip (l : List Char) : List Char :=
  dropTrailing isPyWs (l.dropWhile isPyWs)

/-- `normalize_text` from the source:
`re.sub(r"[ \t\f\v]+", " ", str(value or "").replace(" ", " ")).strip().lower()`. -/
def normalize_text (value : List Char) : List Char :=
  (pyStrip (collapseWs (value.map nbspToSpace))).map Char.toLower

/-- One FNV-1a step on 32 bits: XOR in the code point, multiply by the
FNV prime, mask to 32 bits (`& 0xFFFFFFFF`). -/
def fnvStep (h : ℕ) (c : Char) : ℕ :=
  ((h ^^^ c.toNat) * 16777619) % 4294967296

/-- The 32-bit FNV-1a hash of a character sequence, seeded with the FNV
offset basis 2166136261. -/
def fnv1a32 (cs : List Char) : ℕ :=
  cs.foldl fnvStep 2166136261

/-- `hash_trigram(text, start, dim)` from the source: FNV-1a over the three
characters at `start`, `start+1`, `start+2`, reduced modulo `dim`.
Out-of-range indexing (which would raise in Python) is totalised with
`getD`. -/
def hash_trigram (text : List Char) (start dim : ℕ) : ℕ :=
  (fnvStep (fnvStep (fnvStep 2166136261 (text.getD start ' '))
    (text.getD (start + 1) ' ')) (text.getD (start + 2) ' ')) % dim


/-- Numerically stable sigmoid from the source, over exact reals the two
branches are the same function `x \mapsto 1/(1+e^{-x})`. -/
noncomputable def sigmoid (x : ℝ) : ℝ :=
  if 0 ≤ x then 1 / (1 + Real.exp (-x)) else Real.exp x / (1 + Real.exp x)

/-- The `thresholds` sub-dictionary of a model file; keys may be absent. -/
structure RawThresholds where
  human_max : Option ℝ
  ai_min : Option ℝ

/-- The per-type parameter payload: `{prior_logit, delta}` for
`naive_bayes_hash3`, `{bias, weights}` for `logistic_hash3`.  The JSON
`type` string dispatch of the source is represented by this tag. -/
inductive ModelParams where
  | nb (prior_logit : ℝ) (delta : List ℝ)
  | logistic (bias : ℝ) (weights : List ℝ)

/-- A loaded model as produced by `load_model`. -/
structure Model where
  name : List Char
  dim : ℤ
  max_chars : ℤ
  thresholds : RawThresholds
  params : ModelParams

/-- `compute_score(text, model)` from the source.  `dim = max(1, dim)`,
`max_chars = max(200, max_chars)`; texts whose normalisation is shorter
than 3 characters score the neutral 0.5; otherwise only the trigram
windows inside `[0, min(len(normalized), max_chars) - 2)` are hashed.
The logistic branch groups occurrences into the bucket-count dictionary
exactly as the source does. -/
noncomputable def compute_score (text : List Char) (m : Model) : ℝ :=
  let dim : ℕ := (max 1 m.dim).toNat
  let max_chars : ℕ := (max 200 m.max_chars).toNat
  let normalized := normalize_text text
  if normalized.length < 3 then 1 / 2
  else
    let limit := min normalized.length max_chars
    match m.params with
    | ModelParams.logistic bias weights =>
      let trigram_count : ℕ := max 1 (limit - 2)
      let idxs := (List.range (limit - 2)).map fun i => hash_trigram normalized i dim
      let buckets := idxs.dedup
      sigmoid (bias + (buckets.map fun b =>
        weights.getD b 0 * ((idxs.count b : ℝ) / (trigram_count : ℝ))).sum)
    | ModelParams.nb prior_logit delta =>
      sigmoid (prior_logit + ((List.range (limit - 2)).map fun i =>
        delta.getD (hash_trigram normalized i dim) 0).sum)

/-- Characters matched by `JP_CHAR_RE`: Hiragana/Katakana block and the
CJK unified ideographs. -/
def isJpChar (c : Char) : Bool :=
  (0x3040 ≤ c.toNat && c.toNat ≤ 0x30ff) || (0x4e00 ≤ c.toNat && c.toNat ≤ 0x9fff)

/-- `is_likely_japanese_text` from the source: count JP characters in the
first 2400 characters; flag if the count is at least 40, or at least 8
with ratio at least 0.03 (the float literal 0.03 is modelled by the exact
rational 3/100). -/
def is_likely_japanese_text (text : List Char) : Bool :=
  let sample := text.take 2400
  if sample = [] then false
  else
    let jp_count := (sample.filter isJpChar).length
    if 40 ≤ jp_count then true
    else decide (8 ≤ jp_count) &&
      decide ((3 : ℚ) / 100 ≤ (jp_count : ℚ) / (max 1 sample.length : ℚ))

/-- `predict_judge(score, human_threshold, ai_threshold)` from the source,
generic over any linear order (the source compares floats). -/
def predict_judge {α : Type} [LinearOrder α]
    (score human_threshold ai_threshold : α) : List Char :=
  if score < human_threshold then "Human".data
  else if score < ai_threshold then "Unknown".data
  else "AI".data

/-- Rank of a prediction along the Human < Unknown < AI axis, used to
state monotonicity of the classifier. -/
def judge_rank (pred : List Char) : ℕ :=
  if pred = "Human".data then 0 else if pred = "Unknown".data then 1 else 2


/-- The dictionary of counters returned by `evaluate_valid_rows`, one field
per key of the returned dict. -/
@[ext]
structure PartialResult where
  total : ℕ
  strict_correct : ℕ
  decided_rows : ℕ
  decided_correct : ℕ
  score_sum : ℝ
  gt_ai : ℕ
  gt_human : ℕ
  pred_ai : ℕ
  pred_human : ℕ
  pred_unknown : ℕ
  ai_ai : ℕ
  ai_human : ℕ
  ai_unknown : ℕ
  human_ai : ℕ
  human_human : ℕ
  human_unknown : ℕ
  jp_rows : ℕ
  jp_strict_correct : ℕ
  non_jp_rows : ℕ
  non_jp_strict_correct : ℕ

/-- The all-zero counter dictionary (the loop's initial accumulator). -/
def pzero : PartialResult :=
  ⟨0, 0, 0, 0, 0, 0, 0, 0, 0, 0, 0, 0, 0, 0, 0, 0, 0, 0, 0, 0⟩

/-- Field-wise sum of two `PartialResult`s. -/
def padd (p q : PartialResult) : PartialResult where
  total := p.total + q.total
  strict_correct := p.strict_correct + q.strict_correct
  decided_rows := p.decided_rows + q.decided_rows
  decided_correct := p.decided_correct + q.decided_correct
  score_sum := p.score_sum + q.score_sum
  gt_ai := p.gt_ai + q.gt_ai
  gt_human := p.gt_human + q.gt_human
  pred_ai := p.pred_ai + q.pred_ai
  pred_human := p.pred_human + q.pred_human
  pred_unknown := p.pred_unknown + q.pred_unknown
  ai_ai := p.ai_ai + q.ai_ai
  ai_human := p.ai_human + q.ai_human
  ai_unknown := p.ai_unknown + q.ai_unknown
  human_ai := p.human_ai + q.human_ai
  human_human := p.human_human + q.human_human
  human_unknown := p.human_unknown + q.human_unknown
  jp_rows := p.jp_rows + q.jp_rows
  jp_strict_correct := p.jp_strict_correct + q.jp_strict_correct
  non_jp_rows := p.non_jp_rows + q.non_jp_rows
  non_jp_strict_correct := p.non_jp_strict_correct + q.non_jp_strict_correct

/-- The body of the `for gt, text in rows` loop of `evaluate_valid_rows`:
the counter increments contributed by one valid row.  Japanese routing
replaces the model and thresholds exactly when a secondary model is
supplied and the text is flagged; a `None` override falls back to the
primary threshold. -/
noncomputable def evaluate_row (human_threshold ai_threshold : ℝ) (model : Model)
    (model_ja : Option Model) (human_threshold_ja ai_threshold_ja : Option ℝ)
    (gt text : List Char) : PartialResult :=
  let is_japanese := is_likely_japanese_text text
  let routed : Model × ℝ × ℝ :=
    match model_ja with
    | some mja =>
      if is_japanese then
        (mja, human_threshold_ja.getD human_threshold, ai_threshold_ja.getD ai_threshold)
      else (model, human_threshold, ai_threshold)
    | none => (model, human_threshold, ai_threshold)
  let score := compute_score text routed.1
  let pred := predict_judge score routed.2.1 routed.2.2
  { total := 1
    strict_correct := if pred = gt then 1 else 0
    decided_rows := if pred ≠ "Unknown".data then 1 else 0
    decided_correct := if pred ≠ "Unknown".data ∧ pred = gt then 1 else 0
    score_sum := score
    gt_ai := if gt = "AI".data then 1 else 0
    gt_human := if gt = "AI".data then 0 else 1
    pred_ai := if pred = "AI".data then 1 else 0
    pred_human := if pred = "Human".data then 1 else 0
    pred_unknown := if pred ≠ "AI".data ∧ pred ≠ "Human".data then 1 else 0
    ai_ai := if gt = "AI".data ∧ pred = "AI".data then 1 else 0
    ai_human := if gt = "AI".data ∧ pred = "Human".data then 1 else 0
    ai_unknown := if gt = "AI".data ∧ pred ≠ "AI".data ∧ pred ≠ "Human".data then 1 else 0
    human_ai := if gt ≠ "AI".data ∧ pred = "AI".data then 1 else 0
    human_human := if gt ≠ "AI".data ∧ pred = "Human".data then 1 else 0
    human_unknown := if gt ≠ "AI".data ∧ pred ≠ "AI".data ∧ pred ≠ "Human".data then 1 else 0
    jp_rows := if is_japanese then 1 else 0
    jp_strict_correct := if is_japanese ∧ pred = gt then 1 else 0
    non_jp_rows := if is_japanese then 0 else 1
    non_jp_strict_correct := if ¬is_japanese ∧ pred = gt then 1 else 0 }

/-- `evaluate_valid_rows(rows, ...)` from the source: the loop accumulates
all counters starting from zero; each row contributes
`evaluate_row`'s increments. -/
noncomputable def evaluate_valid_rows (rows : List (List Char × List Char))
    (human_threshold ai_threshold : ℝ) (model : Model) (model_ja : Option Model)
    (human_threshold_ja ai_threshold_ja : Option ℝ) : PartialResult :=
  rows.foldl
    (fun acc r => padd acc (evaluate_row human_threshold ai_threshold model model_ja
      human_threshold_ja ai_threshold_ja r.1 r.2)) pzero

/-- `Counter` increment: `f[k] += n` as a functional update. -/
def bump {α : Type} [DecidableEq α] (f : α → ℕ) (k : α) (n : ℕ) : α → ℕ :=
  fun x => if x = k then f x + n else f x

/-- The `EvalState` dataclass: the single mutable accumulator of the
controlling process.  The `Counter` fields are modelled as functions from
keys to counts. -/
@[ext]
structure EvalState where
  total : ℕ
  skipped : ℕ
  strict_correct : ℕ
  decided_rows : ℕ
  decided_correct : ℕ
  gt_counts : List Char → ℕ
  pred_counts : List Char → ℕ
  conf : List Char × List Char → ℕ
  score_sum : ℝ
  jp_rows : ℕ
  jp_strict_correct : ℕ
  non_jp_rows : ℕ
  non_jp_strict_correct : ℕ

/-- `EvalState()` with all counters zero, as constructed in
`run_evaluation`. -/
def initState : EvalState :=
  ⟨0, 0, 0, 0, 0, fun _ => 0, fun _ => 0, fun _ => 0, 0, 0, 0, 0, 0⟩

/-- `merge_partial_result(state, part)` from the source: add every counter
of the partial result into the accumulator (`skipped` is not touched). -/
noncomputable def merge_partial_result (state : EvalState) (part : PartialResult) :
    EvalState where
  total := state.total + part.total
  skipped := state.skipped
  strict_correct := state.strict_correct + part.strict_correct
  decided_rows := state.decided_rows + part.decided_rows
  decided_correct := state.decided_correct + part.decided_correct
  gt_counts := bump (bump state.gt_counts "AI".data part.gt_ai) "Human".data part.gt_human
  pred_counts := bump (bump (bump state.pred_counts "AI".data part.pred_ai)
    "Human".data part.pred_human) "Unknown".data part.pred_unknown
  conf := bump (bump (bump (bump (bump (bump state.conf
    ("AI".data, "AI".data) part.ai_ai)
    ("AI".data, "Human".data) part.ai_human)
    ("AI".data, "Unknown".data) part.ai_unknown)
    ("Human".data, "AI".data) part.human_ai)
    ("Human".data, "Human".data) part.human_human)
    ("Human".data, "Unknown".data) part.human_unknown
  score_sum := state.score_sum + part.score_sum
  jp_rows := state.jp_rows + part.jp_rows
  jp_strict_correct := state.jp_strict_correct + part.jp_strict_correct
  non_jp_rows := state.non_jp_rows + part.non_jp_rows
  non_jp_strict_correct := state.non_jp_strict_correct + part.non_jp_strict_correct

/-- `state.skipped += n`. -/
def addSkip (n : ℕ) (s : EvalState) : EvalState :=
  { s with skipped := s.skipped + n }

/-- A dataset row as delivered by `batch.to_pylist()`: the `label` and
`text` columns (`None` is modelled by the empty string, matching
`str(row.get(...) or "")`). -/
structure Row where
  label : List Char
  text : List Char

/-- The canonicalised label of a row: `str(label or "").strip().lower()`. -/
def labelNorm (r : Row) : List Char :=
  (pyStrip r.label).map Char.toLower

/-- A row survives the filter iff its label is `ai`/`human` up to case and
surrounding whitespace, and its normalised text is non-empty. -/
def validRow (r : Row) : Bool :=
  decide ((labelNorm r = "ai".data ∨ labelNorm r = "human".data) ∧
    normalize_text r.text ≠ [])

/-- Number of rows of a stream that survive the filter. -/
def validCount (rows : List Row) : ℕ :=
  (rows.filter validRow).length

/-- `select_valid_rows(rows, max_rows, accepted_rows)` from the source:
returns the accepted `(gt, text)` pairs, the updated accepted count, the
number of skipped rows, and the stop flag.  Scanning breaks as soon as the
budget (`max_rows > 0`) is reached, leaving later rows untouched. -/
def select_valid_rows : List Row → ℕ → ℕ →
    List (List Char × List Char) × ℕ × ℕ × Bool
  | [], _, accepted_rows => ([], accepted_rows, 0, false)
  | row :: rest, max_rows, accepted_rows =>
    let gt_raw := labelNorm row
    if gt_raw ≠ "ai".data ∧ gt_raw ≠ "human".data then
      match select_valid_rows rest max_rows accepted_rows with
      | (v, a, s, st) => (v, a, s + 1, st)
    else
      let gt := if gt_raw = "ai".data then "AI".data else "Human".data
      if normalize_text row.text = [] then
        match select_valid_rows rest max_rows accepted_rows with
        | (v, a, s, st) => (v, a, s + 1, st)
      else
        if 0 < max_rows ∧ max_rows ≤ accepted_rows + 1 then
          ([(gt, row.text)], accepted_rows + 1, 0, true)
        else
          match select_valid_rows rest max_rows (accepted_rows + 1) with
          | (v, a, s, st) => ((gt, row.text) :: v, a, s, st)

/-- The batch loop of `run_evaluation` (sequential mode): filter each
batch, add its skip count, evaluate and merge its valid rows if any, and
stop once the budget flag is raised.  The parallel mode submits exactly
the same partial results to the same merge, so its aggregate is this
fold's (see the merge lemmas below). -/
noncomputable def run_eval_go (max_rows : ℕ) (human_threshold ai_threshold : ℝ)
    (human_threshold_ja ai_threshold_ja : ℝ) (model : Model) (model_ja : Option Model) :
    List (List Row) → EvalState → ℕ → EvalState
  | [], state, _ => state
  | b :: bs, state, accepted_rows =>
    match select_valid_rows b max_rows accepted_rows with
    | (valid_rows, accepted2, skipped, should_stop) =>
      let s1 := addSkip skipped state
      let s2 := if valid_rows = [] then s1
        else merge_partial_result s1 (evaluate_valid_rows valid_rows
          human_threshold ai_threshold model model_ja
          (some human_threshold_ja) (some ai_threshold_ja))
      if should_stop then s2
      else run_eval_go max_rows human_threshold ai_threshold
        human_threshold_ja ai_threshold_ja model model_ja bs s2 accepted2

/-- `run_evaluation`'s accumulation over a batched stream, starting from
the fresh state and a zero accepted count. -/
noncomputable def run_eval_batches (batches : List (List Row)) (max_rows : ℕ)
    (human_threshold ai_threshold human_threshold_ja ai_threshold_ja : ℝ)
    (model : Model) (model_ja : Option Model) : EvalState :=
  run_eval_go max_rows human_threshold ai_threshold human_threshold_ja ai_threshold_ja
    model model_ja batches initState 0

/-- `DEFAULT_HUMAN_THRESHOLD` (decimal literal, exact here). -/
noncomputable def DEFAULT_HUMAN_THRESHOLD : ℝ := 0.45

/-- `DEFAULT_AI_THRESHOLD`. -/
noncomputable def DEFAULT_AI_THRESHOLD : ℝ := 0.55

/-- The JSON object handed to `load_model`, with every key optional. -/
structure RawModel where
  name : Option (List Char)
  type : Option (List Char)
  dim : Option ℤ
  max_chars : Option ℤ
  thresholds : Option RawThresholds
  prior_logit : Option ℝ
  delta : Option (List ℝ)
  bias : Option ℝ
  weights : Option (List ℝ)

/-- Python `value or default` for strings: `None` and `""` both fall back. -/
def orDefaultStr (v : Option (List Char)) (d : List Char) : List Char :=
  match v with
  | none => d
  | some s => if s = [] then d else s

/-- Python `value or default` for ints: `None` and `0` both fall back. -/
def orDefaultInt (v : Option ℤ) (d : ℤ) : ℤ :=
  match v with
  | none => d
  | some n => if n = 0 then d else n

/-- `load_model(path)` from the source, with the JSON file already parsed
into a `RawModel`.  `raise ValueError(msg)` is modelled as
`Except.error msg`.  `dim` is validated first; then the parameter array of
the dispatched variant must have length exactly `dim`. -/
def load_model (r : RawModel) : Except (List Char) Model :=
  let dim := orDefaultInt r.dim 0
  if dim ≤ 0 then Except.error "Invalid model: dim must be > 0".data
  else
    let model_type := orDefaultStr r.type "naive_bayes_hash3".data
    let name := orDefaultStr r.name "hash_model".data
    let max_chars := orDefaultInt r.max_chars 1200
    let thresholds := r.thresholds.getD ⟨none, none⟩
    if model_type = "logistic_hash3".data then
      let weights := r.weights.getD []
      if (weights.length : ℤ) ≠ dim then
        Except.error "Invalid logistic model: weights length mismatch".data
      else
        Except.ok ⟨name, dim, max_chars, thresholds,
          ModelParams.logistic (r.bias.getD 0) weights⟩
    else
      let delta := r.delta.getD []
      if (delta.length : ℤ) ≠ dim then
        Except.error "Invalid NB model: delta length mismatch".data
      else
        Except.ok ⟨name, dim, max_chars, thresholds,
          ModelParams.nb (r.prior_logit.getD 0) delta⟩

/-- `clamp(value, min_value, max_value)` from the source (the `NaN` guard
is vacuous over `ℝ`). -/
noncomputable def clamp (value min_value max_value : ℝ) : ℝ :=
  max min_value (min max_value value)

/-- `main`'s threshold resolution: a negative CLI argument selects the
model-embedded default (clamped to `[0,1]`), otherwise the argument is
clamped to `[0,1]`. -/
noncomputable def effective_threshold (model_value arg : ℝ) : ℝ :=
  if arg < 0 then clamp model_value 0 1 else clamp arg 0 1

/-- `main()` from argument parsing to the evaluation call: load the
primary and optional secondary model, resolve and validate thresholds,
then run the evaluation.  Every `raise` path returns `Except.error`
without touching `batches`.  The `workers` argument only selects the
scheduling mode and is omitted: both modes merge the same partial
results (see the claim-C1 lemmas). -/
noncomputable def run_main (raw : RawModel) (raw_ja : Option RawModel)
    (arg_human arg_ai arg_human_ja arg_ai_ja : ℝ) (max_rows : ℕ)
    (batches : List (List Row)) : Except (List Char) EvalState := do
  let model ← load_model raw
  let model_ja ← match raw_ja with
    | none => pure (none : Option Model)
    | some r => do
      let m ← load_model r
      pure (some m)
  let human_threshold := effective_threshold
    (model.thresholds.human_max.getD DEFAULT_HUMAN_THRESHOLD) arg_human
  let ai_threshold := effective_threshold
    (model.thresholds.ai_min.getD DEFAULT_AI_THRESHOLD) arg_ai
  if ai_threshold ≤ human_threshold then
    Except.error "--ai-threshold must be greater than --human-threshold".data
  else
    match model_ja with
    | none =>
      pure (run_eval_batches batches max_rows human_threshold ai_threshold
        human_threshold ai_threshold model none)
    | some mja =>
      let human_threshold_ja := effective_threshold
        (mja.thresholds.human_max.getD DEFAULT_HUMAN_THRESHOLD) arg_human_ja
      let ai_threshold_ja := effective_threshold
        (mja.thresholds.ai_min.getD DEFAULT_AI_THRESHOLD) arg_ai_ja
      if ai_threshold_ja ≤ human_threshold_ja then
        Except.error "--ai-threshold-ja must be greater than --human-threshold-ja".data
      else
        pure (run_eval_batches batches max_rows human_threshold ai_threshold
          human_threshold_ja ai_threshold_ja model (some mja))

/-- Whether an `Except` is on the error path. -/
def exceptIsError {ε α : Type} : Except ε α → Bool
  | Except.error _ => true
  | Except.ok _ => false

/-- Lookahead formulation of run collapsing, used as the specification side
of the amended normalisation claim: a whitespace-class character followed
by another one is dropped, otherwise it becomes a single space. -/
def collapseSpec : List Char → List Char
  | [] => []
  | [c] => if isSubWs c then [' '] else [c]
  | c :: d :: rest =>
    if isSubWs c && isSubWs d then collapseSpec (d :: rest)
    else (if isSubWs c then ' ' else c) :: collapseSpec (d :: rest)

/-- A list is in collapsed form: every `[ \t\f\v]`-class character in it is
an ASCII space, and no two adjacent characters are both in the class. -/
def Chunked (l : List Char) : Prop :=
  (∀ c ∈ l, isSubWs c = true → c = ' ') ∧
  l.Chain' (fun a b => ¬(isSubWs a = true ∧ isSubWs b = true))

/-- Consistency of a partial result's counters: the row total tallies with
the ground-truth split, the prediction split, the confusion cells and the
language split; decided rows equal the committed predictions; correctness
counters are bounded by their bases. -/
def PRInvariant (p : PartialResult) : Prop :=
  p.total = p.gt_ai + p.gt_human ∧
  p.total = p.pred_ai + p.pred_human + p.pred_unknown ∧
  p.total = p.ai_ai + p.ai_human + p.ai_unknown +
    p.human_ai + p.human_human + p.human_unknown ∧
  p.total = p.jp_rows + p.non_jp_rows ∧
  p.decided_rows = p.pred_ai + p.pred_human ∧
  p.decided_correct ≤ p.decided_rows ∧
  p.decided_rows ≤ p.total ∧
  p.strict_correct = p.jp_strict_correct + p.non_jp_strict_correct ∧
  p.strict_correct ≤ p.total

/-- The same consistency conditions on the accumulator. -/
def StateInvariant (s : EvalState) : Prop :=
  s.total = s.gt_counts "AI".data + s.gt_counts "Human".data ∧
  s.total = s.pred_counts "AI".data + s.pred_counts "Human".data +
    s.pred_counts "Unknown".data ∧
  s.total = s.conf ("AI".data, "AI".data) + s.conf ("AI".data, "Human".data) +
    s.conf ("AI".data, "Unknown".data) + s.conf ("Human".data, "AI".data) +
    s.conf ("Human".data, "Human".data) + s.conf ("Human".data, "Unknown".data) ∧
  s.total = s.jp_rows + s.non_jp_rows ∧
  s.decided_rows = s.pred_counts "AI".data + s.pred_counts "Human".data ∧
  s.decided_correct ≤ s.decided_rows ∧
  s.decided_rows ≤ s.total ∧
  s.strict_correct = s.jp_strict_correct + s.non_jp_strict_correct ∧
  s.strict_correct ≤ s.total

lemma padd_zero_left (p : PartialResult) : padd pzero p = p := by
  ext <;> simp [padd, pzero]

lemma padd_zero_right (p : PartialResult) : padd p pzero = p := by
  ext <;> simp [padd, pzero]

lemma padd_assoc (p q r : PartialResult) : padd (padd p q) r = padd p (padd q r) := by
  ext <;> simp [padd, add_assoc]

lemma padd_comm (p q : PartialResult) : padd p q = padd q p := by
  ext <;> simp [padd, add_comm]

lemma bump_zero {α : Type} [DecidableEq α] (f : α → ℕ) (k : α) : bump f k 0 = f := by
  funext x
  simp [bump]

lemma merge_pzero (s : EvalState) : merge_partial_result s pzero = s := by
  ext <;> simp [merge_partial_result, pzero, bump_zero]


lemma bump_apply {α : Type} [DecidableEq α] (f : α → ℕ) (k : α) (n : ℕ) (x : α) :
    bump f k n x = f x + (if x = k then n else 0) := by
  unfold bump
  split_ifs <;> omega

lemma merge_swap (s : EvalState) (p q : PartialResult) :
    merge_partial_result (merge_partial_result s p) q =
      merge_partial_result (merge_partial_result s q) p := by
  ext x
  all_goals simp only [merge_partial_result, padd, bump_apply]
  all_goals try split_ifs
  all_goals first | omega | ring

lemma merge_merge (s : EvalState) (p q : PartialResult) :
    merge_partial_result (merge_partial_result s p) q =
      merge_partial_result s (padd p q) := by
  ext x
  all_goals simp only [merge_partial_result, padd, bump_apply]
  all_goals try split_ifs
  all_goals first | omega | ring

lemma evaluate_foldl_shift (human_threshold ai_threshold : ℝ) (model : Model)
    (model_ja : Option Model) (hja aja : Option ℝ)
    (rows : List (List Char × List Char)) :
    ∀ p : PartialResult,
      rows.foldl (fun acc r => padd acc (evaluate_row human_threshold ai_threshold
        model model_ja hja aja r.1 r.2)) p =
      padd p (evaluate_valid_rows rows human_threshold ai_threshold model model_ja
        hja aja) := by
  induction rows with
  | nil =>
    intro p
    simp [evaluate_valid_rows, padd_zero_right]
  | cons r rest ih =>
    intro p
    simp only [evaluate_valid_rows, List.foldl_cons] at *
    rw [ih, ih (padd pzero _), padd_zero_left, padd_assoc]

lemma evaluate_valid_rows_cons (human_threshold ai_threshold : ℝ) (model : Model)
    (model_ja : Option Model) (hja aja : Option ℝ) (r : List Char × List Char)
    (rows : List (List Char × List Char)) :
    evaluate_valid_rows (r :: rows) human_threshold ai_threshold model model_ja hja aja =
      padd (evaluate_row human_threshold ai_threshold model model_ja hja aja r.1 r.2)
        (evaluate_valid_rows rows human_threshold ai_threshold model model_ja hja aja) := by
  simp only [evaluate_valid_rows, List.foldl_cons]
  rw [evaluate_foldl_shift, padd_zero_left]
  rfl

lemma evaluate_valid_rows_append (human_threshold ai_threshold : ℝ) (model : Model)
    (model_ja : Option Model) (hja aja : Option ℝ)
    (xs ys : List (List Char × List Char)) :
    evaluate_valid_rows (xs ++ ys) human_threshold ai_threshold model model_ja hja aja =
      padd (evaluate_valid_rows xs human_threshold ai_threshold model model_ja hja aja)
        (evaluate_valid_rows ys human_threshold ai_threshold model model_ja hja aja) := by
  induction xs with
  | nil =>
    simp only [List.nil_append]
    rw [show evaluate_valid_rows [] human_threshold ai_threshold model model_ja hja aja =
      pzero from rfl, padd_zero_left]
  | cons r rest ih =>
    simp only [List.cons_append]
    rw [evaluate_valid_rows_cons, evaluate_valid_rows_cons, ih, padd_assoc]

lemma evaluate_row_total (human_threshold ai_threshold : ℝ) (model : Model)
    (model_ja : Option Model) (hja aja : Option ℝ) (gt text : List Char) :
    (evaluate_row human_threshold ai_threshold model model_ja hja aja gt text).total = 1 := by
  simp [evaluate_row]

lemma evaluate_total (human_threshold ai_threshold : ℝ) (model : Model)
    (model_ja : Option Model) (hja aja : Option ℝ)
    (rows : List (List Char × List Char)) :
    (evaluate_valid_rows rows human_threshold ai_threshold model model_ja hja aja).total =
      rows.length := by
  induction rows with
  | nil => rfl
  | cons r rest ih =>
    rw [evaluate_valid_rows_cons]
    simp only [padd, evaluate_row_total, List.length_cons]
    omega

lemma foldl_merge_chunks (human_threshold ai_threshold : ℝ) (model : Model)
    (model_ja : Option Model) (hja aja : Option ℝ) (chunks : List (List (List Char × List Char))) :
    ∀ s : EvalState,
      chunks.foldl (fun st c => merge_partial_result st (evaluate_valid_rows c
        human_threshold ai_threshold model model_ja hja aja)) s =
      merge_partial_result s (evaluate_valid_rows chunks.flatten
        human_threshold ai_threshold model model_ja hja aja) := by
  induction chunks with
  | nil =>
    intro s
    simp only [List.foldl_nil, List.flatten_nil]
    rw [show evaluate_valid_rows [] human_threshold ai_threshold model model_ja hja aja =
      pzero from rfl, merge_pzero]
  | cons c rest ih =>
    intro s
    simp only [List.foldl_cons, List.flatten_cons]
    rw [ih, merge_merge, evaluate_valid_rows_append]

lemma foldl_merge_perm (s : EvalState) (parts₁ parts₂ : List PartialResult)
    (hp : parts₁.Perm parts₂) :
    parts₁.foldl merge_partial_result s = parts₂.foldl merge_partial_result s := by
  induction hp generalizing s with
  | nil => rfl
  | cons x l ih =>
    simp only [List.foldl_cons]
    exact ih _
  | swap x y l =>
    simp only [List.foldl_cons]
    rw [merge_swap]
  | trans h₁ h₂ ih₁ ih₂ =>
    rw [ih₁, ih₂]

lemma predict_judge_cases {α : Type} [LinearOrder α] (score hm am : α) :
    predict_judge score hm am = "Human".data ∨ predict_judge score hm am = "Unknown".data ∨
      predict_judge score hm am = "AI".data := by
  unfold predict_judge
  split_ifs <;> simp

lemma row_invariant_aux (score : ℝ) (pred gt : List Char) (jp : Bool)
    (h : pred = "Human".data ∨ pred = "Unknown".data ∨ pred = "AI".data) :
    PRInvariant
      { total := 1
        strict_correct := if pred = gt then 1 else 0
        decided_rows := if pred ≠ "Unknown".data then 1 else 0
        decided_correct := if pred ≠ "Unknown".data ∧ pred = gt then 1 else 0
        score_sum := score
        gt_ai := if gt = "AI".data then 1 else 0
        gt_human := if gt = "AI".data then 0 else 1
        pred_ai := if pred = "AI".data then 1 else 0
        pred_human := if pred = "Human".data then 1 else 0
        pred_unknown := if pred ≠ "AI".data ∧ pred ≠ "Human".data then 1 else 0
        ai_ai := if gt = "AI".data ∧ pred = "AI".data then 1 else 0
        ai_human := if gt = "AI".data ∧ pred = "Human".data then 1 else 0
        ai_unknown := if gt = "AI".data ∧ pred ≠ "AI".data ∧ pred ≠ "Human".data then 1 else 0
        human_ai := if gt ≠ "AI".data ∧ pred = "AI".data then 1 else 0
        human_human := if gt ≠ "AI".data ∧ pred = "Human".data then 1 else 0
        human_unknown := if gt ≠ "AI".data ∧ pred ≠ "AI".data ∧ pred ≠ "Human".data then 1 else 0
        jp_rows := if jp then 1 else 0
        jp_strict_correct := if jp ∧ pred = gt then 1 else 0
        non_jp_rows := if jp then 0 else 1
        non_jp_strict_correct := if ¬jp ∧ pred = gt then 1 else 0 } := by
  have hHU : ("Human".data ≠ "Unknown".data) := by decide
  have hHA : ("Human".data ≠ "AI".data) := by decide
  have hUH : ("Unknown".data ≠ "Human".data) := by decide
  have hUA : ("Unknown".data ≠ "AI".data) := by decide
  have hAH : ("AI".data ≠ "Human".data) := by decide
  have hAU : ("AI".data ≠ "Unknown".data) := by decide
  rcases h with h | h | h <;> subst h <;> by_cases hjp : jp <;>
    by_cases hgt : gt = "AI".data <;>
    simp [PRInvariant, hjp, hgt, hHU, hHA, hUH, hUA, hAH, hAU]
  all_goals split_ifs <;> omega

lemma evaluate_row_invariant (human_threshold ai_threshold : ℝ) (model : Model)
    (model_ja : Option Model) (hja aja : Option ℝ) (gt text : List Char) :
    PRInvariant (evaluate_row human_threshold ai_threshold model model_ja hja aja gt text) := by
  simp only [evaluate_row]
  exact row_invariant_aux _ _ _ _ (predict_judge_cases _ _ _)

lemma pzero_invariant : PRInvariant pzero := by
  simp [PRInvariant, pzero]

lemma padd_invariant (p q : PartialResult) (hp : PRInvariant p) (hq : PRInvariant q) :
    PRInvariant (padd p q) := by
  unfold PRInvariant at hp hq ⊢
  simp only [padd]
  omega

lemma evaluate_invariant (human_threshold ai_threshold : ℝ) (model : Model)
    (model_ja : Option Model) (hja aja : Option ℝ) (rows : List (List Char × List Char)) :
    PRInvariant (evaluate_valid_rows rows human_threshold ai_threshold model model_ja hja aja) := by
  induction rows with
  | nil => exact pzero_invariant
  | cons r rest ih =>
    rw [evaluate_valid_rows_cons]
    exact padd_invariant _ _ (evaluate_row_invariant _ _ _ _ _ _ _ _) ih

lemma merge_preserves_invariant (s : EvalState) (p : PartialResult)
    (hs : StateInvariant s) (hp : PRInvariant p) :
    StateInvariant (merge_partial_result s p) := by
  have eA : "AI".data = ['A', 'I'] := rfl
  have eH : "Human".data = ['H', 'u', 'm', 'a', 'n'] := rfl
  have eU : "Unknown".data = ['U', 'n', 'k', 'n', 'o', 'w', 'n'] := rfl
  have hAH : (['A', 'I'] ≠ ['H', 'u', 'm', 'a', 'n']) := by decide
  have hAU : (['A', 'I'] ≠ ['U', 'n', 'k', 'n', 'o', 'w', 'n']) := by decide
  have hHA : (['H', 'u', 'm', 'a', 'n'] ≠ ['A', 'I']) := by decide
  have hHU : (['H', 'u', 'm', 'a', 'n'] ≠ ['U', 'n', 'k', 'n', 'o', 'w', 'n']) := by decide
  have hUA : (['U', 'n', 'k', 'n', 'o', 'w', 'n'] ≠ ['A', 'I']) := by decide
  have hUH : (['U', 'n', 'k', 'n', 'o', 'w', 'n'] ≠ ['H', 'u', 'm', 'a', 'n']) := by decide
  unfold StateInvariant at hs
  unfold PRInvariant at hp
  unfold StateInvariant
  simp only [eA, eH, eU] at hs ⊢
  simp only [merge_partial_result, bump_apply, Prod.mk.injEq, eA, eH, eU]
  simp only [hAH, hAU, hHA, hHU, hUA, hUH, eq_self_iff_true, true_and, and_true,
    false_and, and_false, if_true, if_false]
  omega

lemma collapseAux_true_eq (l : List Char) :
    collapseAux true l = collapseAux false (l.dropWhile isSubWs) := by
  induction l with
  | nil => rfl
  | cons c cs ih =>
    by_cases hc : isSubWs c
    · simp [collapseAux, hc, List.dropWhile_cons, ih]
    · simp [collapseAux, hc, List.dropWhile_cons]

lemma collapseWs_eq_spec (l : List Char) : collapseWs l = collapseSpec l := by
  unfold collapseWs
  induction l with
  | nil => rfl
  | cons c tail ih =>
    cases tail with
    | nil => by_cases hc : isSubWs c <;> simp [collapseAux, collapseSpec, hc]
    | cons d rest =>
      by_cases hc : isSubWs c <;> by_cases hd : isSubWs d <;>
        simp [collapseAux, collapseSpec, hc, hd, collapseAux_true_eq,
          List.dropWhile_cons, ← ih]

/-- Claim C1: merging the partial results produced by `evaluate_valid_rows`
on the chunks of any partition of a dataset, in any merge order, yields the
same aggregate as evaluating the whole dataset at once: exchanging and
composing merges is sound, `padd` is commutative and associative,
`evaluate_valid_rows` distributes over list concatenation, folding merges
over a chunking equals the single merged evaluation of the flattened
stream, and folding merges over any permutation of the parts gives the
same state. -/
theorem merge_partition_independence :
    (∀ (s : EvalState) (p q : PartialResult),
      merge_partial_result (merge_partial_result s p) q =
        merge_partial_result (merge_partial_result s q) p) ∧
    (∀ (s : EvalState) (p q : PartialResult),
      merge_partial_result (merge_partial_result s p) q =
        merge_partial_result s (padd p q)) ∧
    (∀ p q : PartialResult, padd p q = padd q p) ∧
    (∀ p q r : PartialResult, padd (padd p q) r = padd p (padd q r)) ∧
    (∀ (human_threshold ai_threshold : ℝ) (model : Model) (model_ja : Option Model)
      (hja aja : Option ℝ) (xs ys : List (List Char × List Char)),
      evaluate_valid_rows (xs ++ ys) human_threshold ai_threshold model model_ja hja aja =
        padd (evaluate_valid_rows xs human_threshold ai_threshold model model_ja hja aja)
          (evaluate_valid_rows ys human_threshold ai_threshold model model_ja hja aja)) ∧
    (∀ (human_threshold ai_threshold : ℝ) (model : Model) (model_ja : Option Model)
      (hja aja : Option ℝ) (chunks : List (List (List Char × List Char))) (s : EvalState),
      chunks.foldl (fun st c => merge_partial_result st (evaluate_valid_rows c
        human_threshold ai_threshold model model_ja hja aja)) s =
      merge_partial_result s (evaluate_valid_rows chunks.flatten
        human_threshold ai_threshold model model_ja hja aja)) ∧
    (∀ (s : EvalState) (parts₁ parts₂ : List PartialResult), parts₁.Perm parts₂ →
      parts₁.foldl merge_partial_result s = parts₂.foldl merge_partial_result s) :=
  ⟨merge_swap, merge_merge, padd_comm, padd_assoc,
   fun ht ai m mja hja aja xs ys => evaluate_valid_rows_append ht ai m mja hja aja xs ys,
   fun ht ai m mja hja aja chunks s => foldl_merge_chunks ht ai m mja hja aja chunks s,
   fun s p₁ p₂ h => foldl_merge_perm s p₁ p₂ h⟩

theorem merge_partition_independence_witness :
    [padd pzero pzero, pzero].foldl merge_partial_result initState =
      [pzero, padd pzero pzero].foldl merge_partial_result initState :=
  merge_partition_independence.2.2.2.2.2.2 initState _ _ (List.Perm.swap _ _ _)

/-- Claim C2 (counterexample to the claim as stated): `normalize_text` does
not collapse every whitespace run — a newline between words survives, so
the output on "a\nb" is not "a b". -/
theorem normalize_text_whitespace_counterexample :
    normalize_text "a\nb".data = "a\nb".data ∧ normalize_text "a\nb".data ≠ "a b".data := by
  constructor
  · decide
  · decide

/-- Claim C2 (amended): `normalize_text` lowercases the text, maps the
non-breaking space to an ASCII space, collapses every run of space, tab,
form feed and vertical tab characters to a single ASCII space (newlines
and carriage returns in the interior are preserved), and trims leading and
trailing whitespace.  Stated as agreement with the independent lookahead
formulation of run collapsing. -/
theorem normalize_text_amended (value : List Char) :
    normalize_text value =
      (pyStrip (collapseSpec (value.map nbspToSpace))).map Char.toLower := by
  unfold normalize_text
  rw [collapseWs_eq_spec]

/-- Claim C4: for a trigram fully inside the text and any positive `dim`,
`hash_trigram` is the 32-bit FNV-1a hash (offset basis 2166136261, per
character XOR then multiply by 16777619 truncated to 32 bits) of the three
characters at `start`, `start+1`, `start+2`, reduced modulo `dim`, and its
output always lies in `[0, dim)`. -/
theorem hash_trigram_fnv_range (text : List Char) (start dim : ℕ)
    (hdim : 0 < dim) (hlen : start + 2 < text.length) :
    hash_trigram text start dim =
      fnv1a32 [text.get ⟨start, by omega⟩, text.get ⟨start + 1, by omega⟩,
        text.get ⟨start + 2, by omega⟩] % dim ∧
    hash_trigram text start dim < dim := by
  constructor
  · unfold hash_trigram fnv1a32
    simp only [List.foldl_cons, List.foldl_nil, List.get_eq_getElem]
    rw [List.getD_eq_getElem text ' ' (show start < text.length by omega),
      List.getD_eq_getElem text ' ' (show start + 1 < text.length by omega),
      List.getD_eq_getElem text ' ' (show start + 2 < text.length by omega)]
  · exact Nat.mod_lt _ hdim

theorem hash_trigram_fnv_range_witness :
    0 < 4096 ∧ 0 + 2 < "abc".data.length ∧ hash_trigram "abc".data 0 4096 < 4096 :=
  ⟨by decide, by decide, (hash_trigram_fnv_range "abc".data 0 4096 (by decide) (by decide)).2⟩

/-- Claim C10: every partial result produced by `evaluate_valid_rows`
satisfies the counter-consistency invariant (total equals the ground-truth
split, the prediction split, the sum of the six confusion cells and the
language split; decided rows equal committed predictions; correctness
counts are bounded), and `merge_partial_result` preserves the corresponding
invariant on `EvalState`. -/
theorem counters_consistent :
    (∀ (rows : List (List Char × List Char)) (human_threshold ai_threshold : ℝ)
      (model : Model) (model_ja : Option Model) (hja aja : Option ℝ),
      PRInvariant (evaluate_valid_rows rows human_threshold ai_threshold model
        model_ja hja aja)) ∧
    (∀ (s : EvalState) (p : PartialResult), StateInvariant s → PRInvariant p →
      StateInvariant (merge_partial_result s p)) :=
  ⟨fun rows ht ai m mja hja aja => evaluate_invariant ht ai m mja hja aja rows,
   fun s p hs hp => merge_preserves_invariant s p hs hp⟩

theorem counters_consistent_witness :
    StateInvariant initState ∧ PRInvariant pzero ∧
      StateInvariant (merge_partial_result initState pzero) :=
  ⟨by unfold StateInvariant; decide, by unfold PRInvariant; decide,
   counters_consistent.2 initState pzero (by unfold StateInvariant; decide)
     (by unfold PRInvariant; decide)⟩

/-- Claim C6: with `human_max < ai_min`, `predict_judge` returns Human
iff the score is below `human_max`, AI iff it is at least `ai_min`, and
Unknown otherwise; consequently decreasing a score can only move the
classification down the AI → Unknown → Human axis, never up. -/
theorem predict_judge_threshold_semantics (score human_max ai_min : ℝ)
    (h : human_max < ai_min) :
    (predict_judge score human_max ai_min = "Human".data ↔ score < human_max) ∧
    (predict_judge score human_max ai_min = "AI".data ↔ ai_min ≤ score) ∧
    (predict_judge score human_max ai_min = "Unknown".data ↔
      human_max ≤ score ∧ score < ai_min) ∧
    ∀ score2 : ℝ, score2 ≤ score →
      judge_rank (predict_judge score2 human_max ai_min) ≤
        judge_rank (predict_judge score human_max ai_min) := by
  have hHU : ("Human".data ≠ "Unknown".data) := by decide
  have hHA : ("Human".data ≠ "AI".data) := by decide
  have hUH : ("Unknown".data ≠ "Human".data) := by decide
  have hUA : ("Unknown".data ≠ "AI".data) := by decide
  have hAH : ("AI".data ≠ "Human".data) := by decide
  have hAU : ("AI".data ≠ "Unknown".data) := by decide
  refine ⟨?_, ?_, ?_, ?_⟩
  · unfold predict_judge
    split_ifs with h1 h2
    · simp [h1]
    · simp [hUH]
      exact not_lt.mp h1
    · simp [hAH]
      exact not_lt.mp h1
  · unfold predict_judge
    split_ifs with h1 h2
    · simp [hHA]
      linarith
    · simp [hUA]
      exact h2
    · simp
      exact not_lt.mp h2
  · unfold predict_judge
    split_ifs with h1 h2
    · simp [hHU]
      intro hc
      linarith
    · simp
      exact ⟨not_lt.mp h1, h2⟩
    · simp [hAU]
      intro hc
      exact not_lt.mp h2
  · intro score2 hs2
    unfold predict_judge
    split_ifs with h1 h2 h3 h4 h5 <;>
      simp [judge_rank, hHU, hHA, hUH, hUA, hAH, hAU] <;> linarith

theorem predict_judge_threshold_semantics_witness :
    (0 : ℝ) < 1 ∧ predict_judge (1 / 2 : ℝ) (0 : ℝ) 1 = "Unknown".data :=
  ⟨zero_lt_one,
   ((predict_judge_threshold_semantics (1 / 2 : ℝ) 0 1 zero_lt_one).2.2.1).mpr
     ⟨le_of_lt one_half_pos, one_half_lt_one⟩⟩

lemma getD_take_eq (l : List Char) (k j : ℕ) (d : Char) (h : j < k) :
    (l.take k).getD j d = l.getD j d := by
  rw [List.getD_eq_getElem?_getD, List.getD_eq_getElem?_getD, List.getElem?_take,
    if_pos h]

lemma hash_congr_take (l1 l2 : List Char) (k j dim : ℕ)
    (ht : l1.take k = l2.take k) (hj : j + 2 < k) :
    hash_trigram l1 j dim = hash_trigram l2 j dim := by
  unfold hash_trigram
  rw [← getD_take_eq l1 k j ' ' (by omega), ← getD_take_eq l1 k (j + 1) ' ' (by omega),
    ← getD_take_eq l1 k (j + 2) ' ' (by omega), ht,
    getD_take_eq l2 k j ' ' (by omega), getD_take_eq l2 k (j + 1) ' ' (by omega),
    getD_take_eq l2 k (j + 2) ' ' (by omega)]

/-- Claim C5: for a NaiveBayesHash3 model with positive `dim`, `delta` of
length `dim` and `max_chars ≥ 200`, `compute_score` returns exactly 0.5
when the normalized text is shorter than 3 characters, and otherwise
returns the sigmoid of `prior_logit` plus the sum of `delta` at the hashed
bucket of every trigram window inside
`[0, min(len(normalized), max_chars) - 2)`, each occurrence counted
independently; texts whose normalisations agree on the first `max_chars`
characters receive the same score, so characters beyond `max_chars` never
influence it. -/
theorem compute_score_nb_spec (text name : List Char) (dim max_chars : ℤ)
    (thr : RawThresholds) (prior_logit : ℝ) (delta : List ℝ)
    (hdim : 0 < dim) (hlen : delta.length = dim.toNat) (hmax : 200 ≤ max_chars) :
    ((normalize_text text).length < 3 →
      compute_score text ⟨name, dim, max_chars, thr, ModelParams.nb prior_logit delta⟩ =
        1 / 2) ∧
    (3 ≤ (normalize_text text).length →
      compute_score text ⟨name, dim, max_chars, thr, ModelParams.nb prior_logit delta⟩ =
        sigmoid (prior_logit +
          ((List.range (min (normalize_text text).length max_chars.toNat - 2)).map fun i =>
            delta.getD (hash_trigram (normalize_text text) i dim.toNat) 0).sum)) ∧
    (∀ text2 : List Char,
      max_chars.toNat ≤ (normalize_text text).length →
      max_chars.toNat ≤ (normalize_text text2).length →
      (normalize_text text2).take max_chars.toNat =
        (normalize_text text).take max_chars.toNat →
      compute_score text2 ⟨name, dim, max_chars, thr, ModelParams.nb prior_logit delta⟩ =
        compute_score text ⟨name, dim, max_chars, thr, ModelParams.nb prior_logit delta⟩) := by
  have hd1 : max 1 dim = dim := max_eq_right (by omega)
  have hm1 : max 200 max_chars = max_chars := max_eq_right hmax
  have hmn : 200 ≤ max_chars.toNat := by omega
  refine ⟨?_, ?_, ?_⟩
  · intro hshort
    unfold compute_score
    simp only [hd1, hm1]
    rw [if_pos hshort]
  · intro hlong
    unfold compute_score
    simp only [hd1, hm1]
    rw [if_neg (by omega)]
  · intro text2 hlen1 hlen2 htake
    unfold compute_score
    simp only [hd1, hm1]
    rw [if_neg (by omega), if_neg (by omega)]
    have hlim1 : min (normalize_text text).length max_chars.toNat = max_chars.toNat :=
      min_eq_right hlen1
    have hlim2 : min (normalize_text text2).length max_chars.toNat = max_chars.toNat :=
      min_eq_right hlen2
    rw [hlim1, hlim2]
    have hmap : ((List.range (max_chars.toNat - 2)).map fun i =>
        delta.getD (hash_trigram (normalize_text text2) i dim.toNat) 0) =
        ((List.range (max_chars.toNat - 2)).map fun i =>
          delta.getD (hash_trigram (normalize_text text) i dim.toNat) 0) := by
      apply List.map_congr_left
      intro i hi
      rw [List.mem_range] at hi
      rw [hash_congr_take (normalize_text text2) (normalize_text text) max_chars.toNat i
        dim.toNat htake (by omega)]
    rw [hmap]

set_option maxRecDepth 8192 in
theorem compute_score_nb_spec_witness :
    (0 : ℤ) < 1 ∧ [(0 : ℝ)].length = (1 : ℤ).toNat ∧ (200 : ℤ) ≤ 200 ∧
      3 ≤ (normalize_text "abc".data).length ∧
      compute_score "abc".data ⟨"m".data, 1, 200, ⟨none, none⟩, ModelParams.nb 0 [0]⟩ =
        sigmoid ((0 : ℝ) + ((List.range (min (normalize_text "abc".data).length
          (200 : ℤ).toNat - 2)).map fun i =>
            [(0 : ℝ)].getD (hash_trigram (normalize_text "abc".data) i (1 : ℤ).toNat) 0).sum) :=
  ⟨by decide, by rfl, by decide, by decide,
   (compute_score_nb_spec "abc".data "m".data 1 200 ⟨none, none⟩ 0 [0] (by decide)
     (by rfl) (by decide)).2.1 (by decide)⟩

lemma select_cons_invalid (row : Row) (rest : List Row) (max_rows accepted : ℕ)
    (h : validRow row = false) :
    select_valid_rows (row :: rest) max_rows accepted =
      (match select_valid_rows rest max_rows accepted with
       | (v, a, s, st) => (v, a, s + 1, st)) := by
  have h2 : ¬((labelNorm row = "ai".data ∨ labelNorm row = "human".data) ∧
      normalize_text row.text ≠ []) := by
    simpa [validRow] using h
  simp only [select_valid_rows]
  by_cases hlab : labelNorm row ≠ "ai".data ∧ labelNorm row ≠ "human".data
  · rw [if_pos hlab]
  · rw [if_neg hlab]
    have htext : normalize_text row.text = [] := by
      by_cases hai : labelNorm row = "ai".data
      · by_contra hne
        exact h2 ⟨Or.inl hai, hne⟩
      · have hhum : labelNorm row = "human".data := by
          by_contra hh
          exact hlab ⟨hai, hh⟩
        by_contra hne
        exact h2 ⟨Or.inr hhum, hne⟩
    rw [if_pos htext]

lemma addSkip_addSkip (m n : ℕ) (s : EvalState) :
    addSkip m (addSkip n s) = addSkip (n + m) s := by
  simp [addSkip, Nat.add_assoc]

lemma addSkip_zero (s : EvalState) : addSkip 0 s = s := by
  simp [addSkip]

lemma merge_addSkip (n : ℕ) (s : EvalState) (p : PartialResult) :
    merge_partial_result (addSkip n s) p = addSkip n (merge_partial_result s p) := by
  ext <;> simp [merge_partial_result, addSkip]

lemma go_addSkip (max_rows : ℕ) (human_threshold ai_threshold : ℝ)
    (human_threshold_ja ai_threshold_ja : ℝ) (model : Model) (model_ja : Option Model)
    (bs : List (List Row)) :
    ∀ (n : ℕ) (s : EvalState) (acc : ℕ),
      run_eval_go max_rows human_threshold ai_threshold human_threshold_ja ai_threshold_ja
        model model_ja bs (addSkip n s) acc =
      addSkip n (run_eval_go max_rows human_threshold ai_threshold human_threshold_ja
        ai_threshold_ja model model_ja bs s acc) := by
  induction bs with
  | nil =>
    intro n s acc
    rfl
  | cons b rest ih =>
    intro n s acc
    rcases hsel : select_valid_rows b max_rows acc with ⟨v, a, sk, st⟩
    simp only [run_eval_go, hsel]
    rw [show addSkip sk (addSkip n s) = addSkip n (addSkip sk s) by
      rw [addSkip_addSkip, addSkip_addSkip, Nat.add_comm]]
    by_cases hv : v = []
    · simp only [hv, if_pos rfl]
      by_cases hst : st = true
      · simp [hst]
      · simp only [Bool.not_eq_true] at hst
        simp [hst, ih]
    · simp only [if_neg hv]
      rw [merge_addSkip]
      by_cases hst : st = true
      · simp [hst]
      · simp only [Bool.not_eq_true] at hst
        simp [hst, ih]

/-- Claim C8: a row whose label is not ai/human up to case and trimming,
or whose normalized text is empty, only increments the skipped counter and
evaluation continues: dropping it from the head of a batch changes the
selection only by one skip, and the whole evaluation's final state is the
same except for `skipped + 1` — so such a row reaches no confusion cell,
no ground-truth or prediction count, and neither total nor score_sum. -/
theorem skipped_rows_only_increment_skipped :
    (∀ (row : Row) (rest : List Row) (max_rows accepted : ℕ), validRow row = false →
      select_valid_rows (row :: rest) max_rows accepted =
        (match select_valid_rows rest max_rows accepted with
         | (v, a, s, st) => (v, a, s + 1, st))) ∧
    (∀ (row : Row) (b : List Row) (bs : List (List Row)) (max_rows : ℕ)
      (human_threshold ai_threshold human_threshold_ja ai_threshold_ja : ℝ)
      (model : Model) (model_ja : Option Model), validRow row = false →
      run_eval_batches ((row :: b) :: bs) max_rows human_threshold ai_threshold
          human_threshold_ja ai_threshold_ja model model_ja =
        addSkip 1 (run_eval_batches (b :: bs) max_rows human_threshold ai_threshold
          human_threshold_ja ai_threshold_ja model model_ja)) := by
  constructor
  · exact fun row rest max_rows accepted h =>
      select_cons_invalid row rest max_rows accepted h
  · intro row b bs max_rows ht ai hja aja model model_ja hrow
    unfold run_eval_batches
    rcases hselb : select_valid_rows b max_rows 0 with ⟨v, a, sk, st⟩
    have hsel2 : select_valid_rows (row :: b) max_rows 0 = (v, a, sk + 1, st) := by
      rw [select_cons_invalid row b max_rows 0 hrow, hselb]
    simp only [run_eval_go, hsel2, hselb]
    rw [show addSkip (sk + 1) initState = addSkip 1 (addSkip sk initState) by
      rw [addSkip_addSkip]]
    by_cases hv : v = []
    · simp only [hv, if_pos rfl]
      by_cases hst : st = true
      · simp [hst]
      · simp only [Bool.not_eq_true] at hst
        simp [hst, go_addSkip]
    · simp only [if_neg hv]
      rw [merge_addSkip]
      by_cases hst : st = true
      · simp [hst]
      · simp only [Bool.not_eq_true] at hst
        simp [hst, go_addSkip]

theorem skipped_rows_only_increment_skipped_witness :
    validRow ⟨"banana".data, "hi".data⟩ = false ∧
      run_eval_batches [[⟨"banana".data, "hi".data⟩]] 0 0 1 0 1
          ⟨"m".data, 1, 1200, ⟨none, none⟩, ModelParams.nb 0 [0]⟩ none =
        addSkip 1 (run_eval_batches [[]] 0 0 1 0 1
          ⟨"m".data, 1, 1200, ⟨none, none⟩, ModelParams.nb 0 [0]⟩ none) :=
  ⟨by decide, skipped_rows_only_increment_skipped.2 ⟨"banana".data, "hi".data⟩ [] [] 0
    0 1 0 1 ⟨"m".data, 1, 1200, ⟨none, none⟩, ModelParams.nb 0 [0]⟩ none (by decide)⟩

lemma validCount_cons (r : Row) (rest : List Row) :
    validCount (r :: rest) = (if validRow r then 1 else 0) + validCount rest := by
  by_cases h : validRow r
  · simp [validCount, List.filter_cons, h]
    omega
  · simp [validCount, List.filter_cons, h]

lemma validCount_append (xs ys : List Row) :
    validCount (xs ++ ys) = validCount xs + validCount ys := by
  simp [validCount, List.filter_append]

lemma validRow_of_branches (row : Row)
    (hlab : ¬(labelNorm row ≠ "ai".data ∧ labelNorm row ≠ "human".data))
    (htext : ¬normalize_text row.text = []) : validRow row = true := by
  simp only [validRow, decide_eq_true_eq]
  refine ⟨?_, htext⟩
  by_cases hai : labelNorm row = "ai".data
  · exact Or.inl hai
  · right
    by_contra hh
    exact hlab ⟨hai, hh⟩

lemma validRow_false_of_label (row : Row)
    (hlab : labelNorm row ≠ "ai".data ∧ labelNorm row ≠ "human".data) :
    validRow row = false := by
  simp [validRow, hlab.1, hlab.2]

lemma validRow_false_of_text (row : Row)
    (htext : normalize_text row.text = []) : validRow row = false := by
  simp [validRow, htext]

lemma select_spec (rows : List Row) : ∀ (max_rows accepted : ℕ)
    (v : List (List Char × List Char)) (a s : ℕ) (st : Bool),
    select_valid_rows rows max_rows accepted = (v, a, s, st) →
    a = accepted + v.length ∧
    (st = true → v ≠ [] ∧ 0 < max_rows ∧ max_rows ≤ a ∧
      (accepted < max_rows → a = max_rows)) ∧
    (st = false → v.length = validCount rows ∧
      (0 < max_rows → accepted < max_rows → a < max_rows)) := by
  induction rows with
  | nil =>
    intro k acc v a s st h
    simp only [select_valid_rows, Prod.mk.injEq] at h
    obtain ⟨h1, h2, h3, h4⟩ := h
    subst h1
    subst h2
    subst h4
    refine ⟨by simp, by simp, fun _ => ⟨by simp [validCount], fun _ hacc => hacc⟩⟩
  | cons row rest ih =>
    intro k acc v a s st h
    simp only [select_valid_rows] at h
    by_cases hlab : labelNorm row ≠ "ai".data ∧ labelNorm row ≠ "human".data
    · rw [if_pos hlab] at h
      rcases hsel : select_valid_rows rest k acc with ⟨v1, a1, s1, st1⟩
      rw [hsel] at h
      simp only [Prod.mk.injEq] at h
      obtain ⟨h1, h2, h3, h4⟩ := h
      subst h1
      subst h2
      subst h4
      have IH := ih k acc v1 a1 s1 st1 hsel
      refine ⟨IH.1, IH.2.1, fun hst => ?_⟩
      obtain ⟨hl, hb⟩ := IH.2.2 hst
      refine ⟨?_, hb⟩
      rw [validCount_cons, validRow_false_of_label row hlab, hl]
      simp
    · rw [if_neg hlab] at h
      by_cases htext : normalize_text row.text = []
      · rw [if_pos htext] at h
        rcases hsel : select_valid_rows rest k acc with ⟨v1, a1, s1, st1⟩
        rw [hsel] at h
        simp only [Prod.mk.injEq] at h
        obtain ⟨h1, h2, h3, h4⟩ := h
        subst h1
        subst h2
        subst h4
        have IH := ih k acc v1 a1 s1 st1 hsel
        refine ⟨IH.1, IH.2.1, fun hst => ?_⟩
        obtain ⟨hl, hb⟩ := IH.2.2 hst
        refine ⟨?_, hb⟩
        rw [validCount_cons, validRow_false_of_text row htext, hl]
        simp
      · rw [if_neg htext] at h
        have hvr := validRow_of_branches row hlab htext
        by_cases hbudget : 0 < k ∧ k ≤ acc + 1
        · rw [if_pos hbudget] at h
          simp only [Prod.mk.injEq] at h
          obtain ⟨h1, h2, h3, h4⟩ := h
          subst h1
          subst h2
          subst h4
          refine ⟨by simp, fun _ => ⟨by simp, hbudget.1, hbudget.2, fun hacc => by omega⟩,
            fun hst => by simp at hst⟩
        · rw [if_neg hbudget] at h
          rcases hsel : select_valid_rows rest k (acc + 1) with ⟨v1, a1, s1, st1⟩
          rw [hsel] at h
          simp only [Prod.mk.injEq] at h
          obtain ⟨h1, h2, h3, h4⟩ := h
          subst h1
          subst h2
          subst h3
          subst h4
          have IH := ih k (acc + 1) v1 a1 s1 st1 hsel
          refine ⟨?_, ?_, ?_⟩
          · simp only [List.length_cons]
            have := IH.1
            omega
          · intro hst
            obtain ⟨hne, hk, hka, hexact⟩ := IH.2.1 hst
            exact ⟨by simp, hk, hka, fun hacc => hexact (by omega)⟩
          · intro hst
            obtain ⟨hl, hb⟩ := IH.2.2 hst
            constructor
            · rw [validCount_cons, hvr]
              simp only [List.length_cons, eq_self_iff_true, if_true]
              omega
            · intro hk hacc
              exact hb hk (by omega)

lemma merge_total (s : EvalState) (p : PartialResult) :
    (merge_partial_result s p).total = s.total + p.total := rfl

lemma addSkip_total (n : ℕ) (s : EvalState) : (addSkip n s).total = s.total := rfl

lemma go_total (max_rows : ℕ) (human_threshold ai_threshold : ℝ)
    (human_threshold_ja ai_threshold_ja : ℝ) (model : Model) (model_ja : Option Model)
    (bs : List (List Row)) :
    ∀ (s : EvalState) (acc : ℕ), s.total = acc → acc < max_rows →
      max_rows ≤ acc + validCount bs.flatten →
      (run_eval_go max_rows human_threshold ai_threshold human_threshold_ja
        ai_threshold_ja model model_ja bs s acc).total = max_rows := by
  induction bs with
  | nil =>
    intro s acc h1 h2 h3
    simp only [List.flatten_nil] at h3
    rw [show validCount [] = 0 from rfl] at h3
    omega
  | cons b rest ih =>
    intro s acc h1 h2 h3
    rcases hsel : select_valid_rows b max_rows acc with ⟨v, a, sk, st⟩
    have hs := select_spec b max_rows acc v a sk st hsel
    simp only [run_eval_go, hsel]
    simp only [List.flatten_cons, validCount_append] at h3
    by_cases hst : st = true
    · obtain ⟨hne, hk, hka, hexact⟩ := hs.2.1 hst
      simp only [hst, if_neg hne, eq_self_iff_true, if_true]
      rw [merge_total, addSkip_total, evaluate_total, h1]
      have h4 := hs.1
      have h5 := hexact h2
      omega
    · simp only [Bool.not_eq_true] at hst
      obtain ⟨hl, hb⟩ := hs.2.2 hst
      simp only [hst, Bool.false_eq_true, if_false]
      apply ih
      · by_cases hv : v = []
        · rw [if_pos hv, addSkip_total, h1, hs.1, hv]
          simp
        · rw [if_neg hv, merge_total, addSkip_total, evaluate_total, h1, hs.1]
      · exact hb (by omega) h2
      · have h4 := hs.1
        omega

lemma select_append (xs : List Row) : ∀ (ys : List Row) (max_rows acc : ℕ),
    select_valid_rows (xs ++ ys) max_rows acc =
      (match select_valid_rows xs max_rows acc with
       | (v1, a1, s1, true) => (v1, a1, s1, true)
       | (v1, a1, s1, false) =>
         match select_valid_rows ys max_rows a1 with
         | (v2, a2, s2, st2) => (v1 ++ v2, a2, s1 + s2, st2)) := by
  induction xs with
  | nil =>
    intro ys k acc
    rcases hsel : select_valid_rows ys k acc with ⟨v2, a2, s2, st2⟩
    simp [select_valid_rows, hsel]
  | cons r xs ih =>
    intro ys k acc
    simp only [List.cons_append, select_valid_rows, List.append_eq]
    by_cases hlab : labelNorm r ≠ "ai".data ∧ labelNorm r ≠ "human".data
    · rw [if_pos hlab, if_pos hlab, ih ys k acc]
      rcases hx : select_valid_rows xs k acc with ⟨v1, a1, s1, st1⟩
      cases st1
      · rcases hy : select_valid_rows ys k a1 with ⟨v2, a2, s2, st2⟩
        simp
        omega
      · simp
    · rw [if_neg hlab, if_neg hlab]
      by_cases htext : normalize_text r.text = []
      · rw [if_pos htext, if_pos htext, ih ys k acc]
        rcases hx : select_valid_rows xs k acc with ⟨v1, a1, s1, st1⟩
        cases st1
        · rcases hy : select_valid_rows ys k a1 with ⟨v2, a2, s2, st2⟩
          simp
          omega
        · simp
      · rw [if_neg htext, if_neg htext]
        by_cases hbudget : 0 < k ∧ k ≤ acc + 1
        · rw [if_pos hbudget, if_pos hbudget]
        · rw [if_neg hbudget, if_neg hbudget, ih ys k (acc + 1)]
          rcases hx : select_valid_rows xs k (acc + 1) with ⟨v1, a1, s1, st1⟩
          cases st1
          · rcases hy : select_valid_rows ys k a1 with ⟨v2, a2, s2, st2⟩
            simp
          · simp

lemma guard_merge_compose (human_threshold ai_threshold : ℝ) (model : Model)
    (model_ja : Option Model) (human_threshold_ja ai_threshold_ja : ℝ) (s : EvalState)
    (s1 s2 : ℕ) (v1 v2 : List (List Char × List Char)) :
    (if v2 = [] then
      addSkip s2 (if v1 = [] then addSkip s1 s
        else merge_partial_result (addSkip s1 s) (evaluate_valid_rows v1 human_threshold
          ai_threshold model model_ja (some human_threshold_ja) (some ai_threshold_ja)))
    else merge_partial_result
      (addSkip s2 (if v1 = [] then addSkip s1 s
        else merge_partial_result (addSkip s1 s) (evaluate_valid_rows v1 human_threshold
          ai_threshold model model_ja (some human_threshold_ja) (some ai_threshold_ja))))
      (evaluate_valid_rows v2 human_threshold ai_threshold model model_ja
        (some human_threshold_ja) (some ai_threshold_ja))) =
    (if v1 ++ v2 = [] then addSkip (s1 + s2) s
    else merge_partial_result (addSkip (s1 + s2) s)
      (evaluate_valid_rows (v1 ++ v2) human_threshold ai_threshold model model_ja
        (some human_threshold_ja) (some ai_threshold_ja))) := by
  by_cases hv1 : v1 = []
  · by_cases hv2 : v2 = []
    · rw [if_pos hv2, if_pos hv1, if_pos (by simp [hv1, hv2]), addSkip_addSkip]
    · rw [if_neg hv2, if_pos hv1, if_neg (by simp [hv1, hv2]), hv1, List.nil_append,
        addSkip_addSkip]
  · by_cases hv2 : v2 = []
    · rw [if_pos hv2, if_neg hv1, if_neg (by simp [hv1]), hv2, List.append_nil,
        ← merge_addSkip, addSkip_addSkip]
    · rw [if_neg hv2, if_neg hv1, if_neg (by simp [hv1]), ← merge_addSkip,
        addSkip_addSkip, merge_merge, evaluate_valid_rows_append]

lemma run_eval_go_cons_false (max_rows : ℕ) (human_threshold ai_threshold : ℝ)
    (human_threshold_ja ai_threshold_ja : ℝ) (model : Model) (model_ja : Option Model)
    (b : List Row) (bs : List (List Row)) (s : EvalState) (acc : ℕ)
    (v1 : List (List Char × List Char)) (a1 s1 : ℕ)
    (h : select_valid_rows b max_rows acc = (v1, a1, s1, false)) :
    run_eval_go max_rows human_threshold ai_threshold human_threshold_ja ai_threshold_ja
        model model_ja (b :: bs) s acc =
      run_eval_go max_rows human_threshold ai_threshold human_threshold_ja ai_threshold_ja
        model model_ja bs
        (if v1 = [] then addSkip s1 s
         else merge_partial_result (addSkip s1 s) (evaluate_valid_rows v1 human_threshold
           ai_threshold model model_ja (some human_threshold_ja) (some ai_threshold_ja)))
        a1 := by
  simp only [run_eval_go, h, Bool.false_eq_true, if_false]

lemma run_eval_go_cons_true (max_rows : ℕ) (human_threshold ai_threshold : ℝ)
    (human_threshold_ja ai_threshold_ja : ℝ) (model : Model) (model_ja : Option Model)
    (b : List Row) (bs : List (List Row)) (s : EvalState) (acc : ℕ)
    (v1 : List (List Char × List Char)) (a1 s1 : ℕ)
    (h : select_valid_rows b max_rows acc = (v1, a1, s1, true)) :
    run_eval_go max_rows human_threshold ai_threshold human_threshold_ja ai_threshold_ja
        model model_ja (b :: bs) s acc =
      (if v1 = [] then addSkip s1 s
       else merge_partial_result (addSkip s1 s) (evaluate_valid_rows v1 human_threshold
         ai_threshold model model_ja (some human_threshold_ja) (some ai_threshold_ja))) := by
  simp only [run_eval_go, h, if_true]

lemma run_eval_go_nil (max_rows : ℕ) (human_threshold ai_threshold : ℝ)
    (human_threshold_ja ai_threshold_ja : ℝ) (model : Model) (model_ja : Option Model)
    (s : EvalState) (acc : ℕ) :
    run_eval_go max_rows human_threshold ai_threshold human_threshold_ja ai_threshold_ja
      model model_ja [] s acc = s := rfl

lemma go_join (max_rows : ℕ) (human_threshold ai_threshold : ℝ)
    (human_threshold_ja ai_threshold_ja : ℝ) (model : Model) (model_ja : Option Model)
    (bs : List (List Row)) :
    ∀ (b : List Row) (s : EvalState) (acc : ℕ),
      run_eval_go max_rows human_threshold ai_threshold human_threshold_ja
        ai_threshold_ja model model_ja (b :: bs) s acc =
      run_eval_go max_rows human_threshold ai_threshold human_threshold_ja
        ai_threshold_ja model model_ja [b ++ bs.flatten] s acc := by
  induction bs with
  | nil =>
    intro b s acc
    simp [List.flatten_nil]
  | cons b2 rest ih =>
    intro b s acc
    rcases hsel : select_valid_rows b max_rows acc with ⟨v1, a1, s1, st1⟩
    have happ := select_append b (b2 :: rest).flatten max_rows acc
    rw [hsel] at happ
    cases st1
    · dsimp only at happ
      rcases hsel2 : select_valid_rows (b2 :: rest).flatten max_rows a1 with ⟨v2, a2, s2, st2⟩
      rw [hsel2] at happ
      dsimp only at happ
      rw [List.flatten_cons] at hsel2
      rw [run_eval_go_cons_false max_rows human_threshold ai_threshold human_threshold_ja
        ai_threshold_ja model model_ja b (b2 :: rest) s acc v1 a1 s1 hsel]
      rw [ih b2 _ a1]
      rw [List.flatten_cons]
      cases st2
      · rw [run_eval_go_cons_false max_rows human_threshold ai_threshold human_threshold_ja
          ai_threshold_ja model model_ja (b2 ++ rest.flatten) [] _ a1 v2 a2 s2 hsel2]
        rw [run_eval_go_cons_false max_rows human_threshold ai_threshold human_threshold_ja
          ai_threshold_ja model model_ja (b ++ (b2 ++ rest.flatten)) [] s acc
          (v1 ++ v2) a2 (s1 + s2) happ]
        rw [run_eval_go_nil, run_eval_go_nil]
        exact guard_merge_compose human_threshold ai_threshold model model_ja
          human_threshold_ja ai_threshold_ja s s1 s2 v1 v2
      · rw [run_eval_go_cons_true max_rows human_threshold ai_threshold human_threshold_ja
          ai_threshold_ja model model_ja (b2 ++ rest.flatten) [] _ a1 v2 a2 s2 hsel2]
        rw [run_eval_go_cons_true max_rows human_threshold ai_threshold human_threshold_ja
          ai_threshold_ja model model_ja (b ++ (b2 ++ rest.flatten)) [] s acc
          (v1 ++ v2) a2 (s1 + s2) happ]
        exact guard_merge_compose human_threshold ai_threshold model model_ja
          human_threshold_ja ai_threshold_ja s s1 s2 v1 v2
    · dsimp only at happ
      rw [run_eval_go_cons_true max_rows human_threshold ai_threshold human_threshold_ja
        ai_threshold_ja model model_ja b (b2 :: rest) s acc v1 a1 s1 hsel]
      rw [List.flatten_cons]
      rw [run_eval_go_cons_true max_rows human_threshold ai_threshold human_threshold_ja
        ai_threshold_ja model model_ja (b ++ (b2 ++ rest.flatten)) [] s acc v1 a1 s1
        (by rw [← List.flatten_cons]; exact happ)]

/-- Claim C7: with a positive row budget `max_rows = k` and a stream
holding more than `k` valid rows, the evaluation accepts exactly `k` rows
(`processed_rows = k`), however the stream is batched; moreover the whole
run is a function of the concatenated stream only — any batching produces
the same final state as a single batch, so once the budget is reached no
later row is filtered or scored and no accepted row is retracted. -/
theorem row_budget_exact :
    (∀ (batches : List (List Row)) (max_rows : ℕ)
      (human_threshold ai_threshold human_threshold_ja ai_threshold_ja : ℝ)
      (model : Model) (model_ja : Option Model),
      0 < max_rows → max_rows < validCount batches.flatten →
      (run_eval_batches batches max_rows human_threshold ai_threshold
        human_threshold_ja ai_threshold_ja model model_ja).total = max_rows) ∧
    (∀ (batches : List (List Row)) (max_rows : ℕ)
      (human_threshold ai_threshold human_threshold_ja ai_threshold_ja : ℝ)
      (model : Model) (model_ja : Option Model),
      run_eval_batches batches max_rows human_threshold ai_threshold
        human_threshold_ja ai_threshold_ja model model_ja =
      run_eval_batches [batches.flatten] max_rows human_threshold ai_threshold
        human_threshold_ja ai_threshold_ja model model_ja) := by
  constructor
  · intro batches k ht ai hja aja model model_ja hk hcount
    unfold run_eval_batches
    exact go_total k ht ai hja aja model model_ja batches initState 0 rfl hk (by omega)
  · intro batches k ht ai hja aja model model_ja
    cases batches with
    | nil =>
      simp only [List.flatten_nil]
      unfold run_eval_batches
      rw [run_eval_go_nil]
      rw [run_eval_go_cons_false k ht ai hja aja model model_ja [] [] initState 0
        [] 0 0 rfl]
      rw [run_eval_go_nil, if_pos rfl, addSkip_zero]
    | cons b bs =>
      unfold run_eval_batches
      rw [List.flatten_cons]
      exact go_join k ht ai hja aja model model_ja bs b initState 0

theorem row_budget_exact_witness :
    0 < 1 ∧
      1 < validCount ([[⟨"ai".data, "x".data⟩], [⟨"ai".data, "y".data⟩]] :
        List (List Row)).flatten ∧
      (run_eval_batches [[⟨"ai".data, "x".data⟩], [⟨"ai".data, "y".data⟩]] 1 0 1 0 1
        ⟨"m".data, 1, 1200, ⟨none, none⟩, ModelParams.nb 0 [0]⟩ none).total = 1 :=
  ⟨by decide, by decide,
   row_budget_exact.1 [[⟨"ai".data, "x".data⟩], [⟨"ai".data, "y".data⟩]] 1 0 1 0 1
     ⟨"m".data, 1, 1200, ⟨none, none⟩, ModelParams.nb 0 [0]⟩ none (by decide) (by decide)⟩

/-- Claim C9: a model with `dim ≤ 0`, a model whose parameter array
(`delta` or `weights`) has length different from `dim`, a failing
secondary-model load, and an effective threshold configuration with
`ai_min ≤ human_max` (primary or secondary) each abort the run with an
error; the result is the same error for every input stream, so no row is
read or processed and no summary state is produced on these paths. -/
theorem fatal_config_errors :
    (∀ (raw : RawModel) (raw_ja : Option RawModel) (a1 a2 a3 a4 : ℝ) (k : ℕ)
      (batches : List (List Row)), orDefaultInt raw.dim 0 ≤ 0 →
      run_main raw raw_ja a1 a2 a3 a4 k batches =
        Except.error "Invalid model: dim must be > 0".data) ∧
    (∀ (raw : RawModel) (raw_ja : Option RawModel) (a1 a2 a3 a4 : ℝ) (k : ℕ)
      (batches : List (List Row)), 0 < orDefaultInt raw.dim 0 →
      orDefaultStr raw.type "naive_bayes_hash3".data ≠ "logistic_hash3".data →
      ((raw.delta.getD []).length : ℤ) ≠ orDefaultInt raw.dim 0 →
      run_main raw raw_ja a1 a2 a3 a4 k batches =
        Except.error "Invalid NB model: delta length mismatch".data) ∧
    (∀ (raw : RawModel) (raw_ja : Option RawModel) (a1 a2 a3 a4 : ℝ) (k : ℕ)
      (batches : List (List Row)), 0 < orDefaultInt raw.dim 0 →
      orDefaultStr raw.type "naive_bayes_hash3".data = "logistic_hash3".data →
      ((raw.weights.getD []).length : ℤ) ≠ orDefaultInt raw.dim 0 →
      run_main raw raw_ja a1 a2 a3 a4 k batches =
        Except.error "Invalid logistic model: weights length mismatch".data) ∧
    (∀ (raw r2 : RawModel) (a1 a2 a3 a4 : ℝ) (k : ℕ) (batches : List (List Row))
      (m : Model) (e : List Char), load_model raw = Except.ok m →
      load_model r2 = Except.error e →
      run_main raw (some r2) a1 a2 a3 a4 k batches = Except.error e) ∧
    (∀ (raw : RawModel) (a1 a2 a3 a4 : ℝ) (k : ℕ) (batches : List (List Row))
      (m : Model), load_model raw = Except.ok m →
      effective_threshold (m.thresholds.ai_min.getD DEFAULT_AI_THRESHOLD) a2 ≤
        effective_threshold (m.thresholds.human_max.getD DEFAULT_HUMAN_THRESHOLD) a1 →
      run_main raw none a1 a2 a3 a4 k batches =
        Except.error "--ai-threshold must be greater than --human-threshold".data) ∧
    (∀ (raw r2 : RawModel) (a1 a2 a3 a4 : ℝ) (k : ℕ) (batches : List (List Row))
      (m m2 : Model), load_model raw = Except.ok m → load_model r2 = Except.ok m2 →
      effective_threshold (m.thresholds.ai_min.getD DEFAULT_AI_THRESHOLD) a2 ≤
        effective_threshold (m.thresholds.human_max.getD DEFAULT_HUMAN_THRESHOLD) a1 →
      run_main raw (some r2) a1 a2 a3 a4 k batches =
        Except.error "--ai-threshold must be greater than --human-threshold".data) ∧
    (∀ (raw r2 : RawModel) (a1 a2 a3 a4 : ℝ) (k : ℕ) (batches : List (List Row))
      (m m2 : Model), load_model raw = Except.ok m → load_model r2 = Except.ok m2 →
      effective_threshold (m.thresholds.human_max.getD DEFAULT_HUMAN_THRESHOLD) a1 <
        effective_threshold (m.thresholds.ai_min.getD DEFAULT_AI_THRESHOLD) a2 →
      effective_threshold (m2.thresholds.ai_min.getD DEFAULT_AI_THRESHOLD) a4 ≤
        effective_threshold (m2.thresholds.human_max.getD DEFAULT_HUMAN_THRESHOLD) a3 →
      run_main raw (some r2) a1 a2 a3 a4 k batches =
        Except.error "--ai-threshold-ja must be greater than --human-threshold-ja".data) := by
  refine ⟨?_, ?_, ?_, ?_, ?_, ?_, ?_⟩
  · intro raw raw_ja a1 a2 a3 a4 k batches hdim
    have hload : load_model raw = Except.error "Invalid model: dim must be > 0".data := by
      unfold load_model
      rw [if_pos hdim]
    unfold run_main
    rw [hload]
    rfl
  · intro raw raw_ja a1 a2 a3 a4 k batches hdim htype hdelta
    have hload : load_model raw =
        Except.error "Invalid NB model: delta length mismatch".data := by
      unfold load_model
      rw [if_neg (by omega), if_neg htype, if_pos hdelta]
    unfold run_main
    rw [hload]
    rfl
  · intro raw raw_ja a1 a2 a3 a4 k batches hdim htype hweights
    have hload : load_model raw =
        Except.error "Invalid logistic model: weights length mismatch".data := by
      unfold load_model
      rw [if_neg (by omega), if_pos htype, if_pos hweights]
    unfold run_main
    rw [hload]
    rfl
  · intro raw r2 a1 a2 a3 a4 k batches m e hok herr
    unfold run_main
    rw [hok]
    dsimp only [bind, Except.bind, pure, Except.pure]
    rw [herr]
  · intro raw a1 a2 a3 a4 k batches m hok hthr
    unfold run_main
    rw [hok]
    dsimp only [bind, Except.bind, pure, Except.pure]
    rw [if_pos hthr]
  · intro raw r2 a1 a2 a3 a4 k batches m m2 hok hok2 hthr
    unfold run_main
    rw [hok]
    dsimp only [bind, Except.bind, pure, Except.pure]
    rw [hok2]
    dsimp only [bind, Except.bind, pure, Except.pure]
    rw [if_pos hthr]
  · intro raw r2 a1 a2 a3 a4 k batches m m2 hok hok2 hgood hthrja
    unfold run_main
    rw [hok]
    dsimp only [bind, Except.bind, pure, Except.pure]
    rw [hok2]
    dsimp only [bind, Except.bind, pure, Except.pure]
    rw [if_neg (not_le.mpr hgood), if_pos hthrja]

theorem fatal_config_errors_witness :
    orDefaultInt (RawModel.mk none none none none none none none none none).dim 0 ≤ 0 ∧
      run_main ⟨none, none, none, none, none, none, none, none, none⟩ none 0 0 0 0 0 [] =
        Except.error "Invalid model: dim must be > 0".data :=
  ⟨by decide,
   fatal_config_errors.1 ⟨none, none, none, none, none, none, none, none, none⟩
     none 0 0 0 0 0 [] (by decide)⟩

lemma toNat_ofNat_valid (n : ℕ) (h : n < 0xd800) : (Char.ofNat n).toNat = n := by
  rw [Char.ofNat, dif_pos (Or.inl h)]
  rfl

lemma toNat_toLower (c : Char) :
    (Char.toLower c).toNat =
      if 65 ≤ c.toNat ∧ c.toNat ≤ 90 then c.toNat + 32 else c.toNat := by
  unfold Char.toLower
  by_cases h : 65 ≤ c.toNat ∧ c.toNat ≤ 90
  · rw [if_pos ⟨h.1, h.2⟩, if_pos h]
    exact toNat_ofNat_valid _ (by omega)
  · rw [if_neg (by exact h), if_neg h]

lemma isSubWs_toLower (c : Char) : isSubWs (Char.toLower c) = isSubWs c := by
  unfold isSubWs
  rw [toNat_toLower]
  by_cases h : 65 ≤ c.toNat ∧ c.toNat ≤ 90
  · rw [if_pos h]
    have e1 : (decide (c.toNat + 32 = 32) || decide (c.toNat + 32 = 9) ||
        decide (c.toNat + 32 = 12) || decide (c.toNat + 32 = 11)) = false := by
      simp only [Bool.or_eq_false_iff, decide_eq_false_iff_not]
      omega
    have e2 : (decide (c.toNat = 32) || decide (c.toNat = 9) ||
        decide (c.toNat = 12) || decide (c.toNat = 11)) = false := by
      simp only [Bool.or_eq_false_iff, decide_eq_false_iff_not]
      omega
    rw [e1, e2]
  · rw [if_neg h]

lemma isPyWs_of_toNat (c : Char) : isPyWs c = true ↔
    (c.toNat = 32 ∨ (9 ≤ c.toNat ∧ c.toNat ≤ 13) ∨ (28 ≤ c.toNat ∧ c.toNat ≤ 31) ∨
      c.toNat = 0x85 ∨ c.toNat = 0xa0 ∨ c.toNat = 0x1680 ∨
      (0x2000 ≤ c.toNat ∧ c.toNat ≤ 0x200a) ∨ c.toNat = 0x2028 ∨ c.toNat = 0x2029 ∨
      c.toNat = 0x202f ∨ c.toNat = 0x205f ∨ c.toNat = 0x3000) := by
  unfold isPyWs
  simp [Bool.or_eq_true, Bool.and_eq_true, decide_eq_true_eq, or_assoc]

lemma isPyWs_toLower (c : Char) : isPyWs (Char.toLower c) = isPyWs c := by
  rw [Bool.eq_iff_iff, isPyWs_of_toNat, isPyWs_of_toNat, toNat_toLower]
  split_ifs with h
  · omega
  · exact Iff.rfl

lemma char_eq_of_toNat_eq {a b : Char} (h : a.toNat = b.toNat) : a = b := by
  apply Char.ext
  unfold Char.toNat at h
  apply UInt32.eq_of_val_eq
  apply Fin.eq_of_val_eq
  exact h

lemma toLower_toLower (c : Char) : Char.toLower (Char.toLower c) = Char.toLower c := by
  apply char_eq_of_toNat_eq
  simp only [toNat_toLower]
  split_ifs <;> omega

lemma nbspToSpace_ne_nbsp (c : Char) : (nbspToSpace c).toNat ≠ 160 := by
  unfold nbspToSpace
  split
  · decide
  · next h => exact h

lemma toLower_ne_nbsp (c : Char) (h : c.toNat ≠ 160) : (Char.toLower c).toNat ≠ 160 := by
  rw [toNat_toLower]
  split
  · next hb => omega
  · exact h

lemma toLower_space : Char.toLower ' ' = ' ' := by decide

lemma mem_collapseAux : ∀ (l : List Char) (b : Bool) (c : Char),
    c ∈ collapseAux b l → c = ' ' ∨ c ∈ l := by
  intro l
  induction l with
  | nil =>
    intro b c h
    simp [collapseAux] at h
  | cons d cs ih =>
    intro b c h
    by_cases hd : isSubWs d
    · cases b
      · simp only [collapseAux, hd, if_true, Bool.false_eq_true, if_false] at h
        rcases List.mem_cons.mp h with rfl | h2
        · exact Or.inl rfl
        · rcases ih true c h2 with h3 | h3
          · exact Or.inl h3
          · exact Or.inr (List.mem_cons_of_mem _ h3)
      · simp only [collapseAux, hd, if_true] at h
        rcases ih true c h with h3 | h3
        · exact Or.inl h3
        · exact Or.inr (List.mem_cons_of_mem _ h3)
    · simp only [collapseAux, hd, Bool.false_eq_true, if_false] at h
      rcases List.mem_cons.mp h with rfl | h2
      · exact Or.inr (List.mem_cons_self _ _)
      · rcases ih false c h2 with h3 | h3
        · exact Or.inl h3
        · exact Or.inr (List.mem_cons_of_mem _ h3)

lemma head_not_ws_of_collapse_dropWhile (l : List Char) (c : Char)
    (h : (collapseAux false (l.dropWhile isSubWs)).head? = some c) :
    isSubWs c = false := by
  rcases hdw : l.dropWhile isSubWs with _ | ⟨d, rest⟩
  · rw [hdw] at h
    simp [collapseAux] at h
  · have hd : isSubWs d = false := by
      have := List.head?_dropWhile_not isSubWs l
      rw [hdw] at this
      exact this
    rw [hdw] at h
    simp only [collapseAux, hd, Bool.false_eq_true, if_false, List.head?_cons,
      Option.some.injEq] at h
    rw [← h]
    exact hd

lemma chunked_collapseAux : ∀ (n : ℕ) (l : List Char), l.length ≤ n →
    Chunked (collapseAux false l) := by
  intro n
  induction n with
  | zero =>
    intro l h
    have : l = [] := List.eq_nil_of_length_eq_zero (by omega)
    subst this
    exact ⟨by intro c hc _; simp [collapseAux] at hc, by simp [collapseAux]⟩
  | succ n ih =>
    intro l h
    cases l with
    | nil => exact ⟨by intro c hc _; simp [collapseAux] at hc, by simp [collapseAux]⟩
    | cons c cs =>
      simp only [List.length_cons] at h
      by_cases hc : isSubWs c
      · have hstep : collapseAux false (c :: cs) =
            ' ' :: collapseAux false (cs.dropWhile isSubWs) := by
          simp [collapseAux, hc, collapseAux_true_eq]
        rw [hstep]
        have hch := ih (cs.dropWhile isSubWs)
          (le_trans (List.dropWhile_suffix isSubWs).sublist.length_le (by omega))
        constructor
        · intro x hx hxw
          rcases List.mem_cons.mp hx with rfl | hx2
          · rfl
          · exact hch.1 x hx2 hxw
        · rw [List.chain'_cons']
          refine ⟨?_, hch.2⟩
          intro y hy hcon
          have hyw := head_not_ws_of_collapse_dropWhile cs y hy
          rw [hcon.2] at hyw
          exact Bool.false_ne_true hyw.symm
      · have hstep : collapseAux false (c :: cs) = c :: collapseAux false cs := by
          simp [collapseAux, hc]
        rw [hstep]
        have hch := ih cs (by omega)
        constructor
        · intro x hx hxw
          rcases List.mem_cons.mp hx with rfl | hx2
          · exact absurd hxw hc
          · exact hch.1 x hx2 hxw
        · rw [List.chain'_cons']
          refine ⟨?_, hch.2⟩
          intro y _ hcon
          exact hc hcon.1

lemma chunked_collapse (l : List Char) : Chunked (collapseWs l) :=
  chunked_collapseAux l.length l le_rfl

lemma chunked_tail {c : Char} {cs : List Char} (h : Chunked (c :: cs)) : Chunked cs :=
  ⟨fun x hx hw => h.1 x (List.mem_cons_of_mem _ hx) hw, (List.chain'_cons'.mp h.2).2⟩

lemma chunked_collapse_id : ∀ (l : List Char), Chunked l → collapseAux false l = l := by
  intro l
  induction l with
  | nil => intro _; rfl
  | cons c cs ih =>
    intro hch
    have hcs := chunked_tail hch
    by_cases hc : isSubWs c
    · have hcsp : c = ' ' := hch.1 c (List.mem_cons_self _ _) hc
      have hhead : cs.dropWhile isSubWs = cs := by
        cases cs with
        | nil => rfl
        | cons d rest =>
          have hR := (List.chain'_cons'.mp hch.2).1 d (by simp)
          have hd : isSubWs d = false := by
            by_cases hd2 : isSubWs d
            · exact absurd ⟨hc, hd2⟩ hR
            · simpa using hd2
          rw [List.dropWhile_cons, hd]
          simp
      have hstep : collapseAux false (c :: cs) =
          ' ' :: collapseAux false (cs.dropWhile isSubWs) := by
        simp [collapseAux, hc, collapseAux_true_eq]
      rw [hstep, hhead, ih hcs, hcsp]
    · have hstep : collapseAux false (c :: cs) = c :: collapseAux false cs := by
        simp [collapseAux, hc]
      rw [hstep, ih hcs]

lemma chunked_of_suffix {l l2 : List Char} (h : Chunked l) (hs : l2 <:+ l) :
    Chunked l2 :=
  ⟨fun c hc hw => h.1 c (hs.sublist.subset hc) hw, h.2.suffix hs⟩

lemma chunked_of_isPrefix {l l2 : List Char} (h : Chunked l) (hs : l2 <+: l) :
    Chunked l2 :=
  ⟨fun c hc hw => h.1 c (hs.sublist.subset hc) hw, List.Chain'.prefix h.2 hs⟩

lemma chunked_map_toLower {l : List Char} (h : Chunked l) :
    Chunked (l.map Char.toLower) := by
  constructor
  · intro c hc hw
    rcases List.mem_map.mp hc with ⟨d, hd, rfl⟩
    rw [isSubWs_toLower] at hw
    rw [h.1 d hd hw]
    exact toLower_space
  · rw [List.chain'_map]
    refine h.2.imp ?_
    intro a b hab hcon
    rw [isSubWs_toLower, isSubWs_toLower] at hcon
    exact hab hcon

lemma dropTrailing_cons (p : Char → Bool) (c : Char) (cs : List Char) :
    dropTrailing p (c :: cs) =
      if dropTrailing p cs = [] ∧ p c then [] else c :: dropTrailing p cs := rfl

lemma dropTrailing_isPrefix (p : Char → Bool) : ∀ l : List Char, dropTrailing p l <+: l := by
  intro l
  induction l with
  | nil => simp [dropTrailing]
  | cons c cs ih =>
    rw [dropTrailing_cons]
    split_ifs
    · exact ⟨c :: cs, rfl⟩
    · obtain ⟨t, ht⟩ := ih
      exact ⟨t, by rw [List.cons_append, ht]⟩

lemma dropTrailing_getLast? (p : Char → Bool) : ∀ (l : List Char) (c : Char),
    (dropTrailing p l).getLast? = some c → p c = false := by
  intro l
  induction l with
  | nil =>
    intro c h
    simp [dropTrailing] at h
  | cons d cs ih =>
    intro c h
    rw [dropTrailing_cons] at h
    split_ifs at h with hcond
    · simp at h
    · rcases hdt : dropTrailing p cs with _ | ⟨e, es⟩
      · rw [hdt] at h
        simp only [List.getLast?_singleton, Option.some.injEq] at h
        subst h
        by_cases hpd : p d
        · exact absurd ⟨hdt, hpd⟩ hcond
        · simpa using hpd
      · rw [hdt] at h
        rw [List.getLast?_cons_cons] at h
        apply ih c
        rw [hdt]
        exact h

lemma dropTrailing_eq_self (p : Char → Bool) : ∀ (l : List Char),
    (∀ c, l.getLast? = some c → p c = false) → dropTrailing p l = l := by
  intro l
  induction l with
  | nil => intro _; rfl
  | cons d cs ih =>
    intro h
    rw [dropTrailing_cons]
    cases cs with
    | nil =>
      have hd : p d = false := h d rfl
      rw [if_neg (by simp [dropTrailing, hd])]
      rfl
    | cons e es =>
      have hcs : dropTrailing p (e :: es) = e :: es :=
        ih (fun c hc => h c (by rw [List.getLast?_cons_cons]; exact hc))
      rw [hcs, if_neg (by simp)]

lemma dropTrailing_head? (p : Char → Bool) (l : List Char) (c : Char)
    (h : (dropTrailing p l).head? = some c) : l.head? = some c := by
  obtain ⟨t, ht⟩ := dropTrailing_isPrefix p l
  rcases hdt : dropTrailing p l with _ | ⟨x, xs⟩
  · rw [hdt] at h
    simp at h
  · rw [hdt] at h ht
    simp only [List.head?_cons, Option.some.injEq] at h
    rw [← ht, ← h]
    simp

lemma pyStrip_head?_not (l : List Char) (c : Char)
    (h : (pyStrip l).head? = some c) : isPyWs c = false := by
  unfold pyStrip at h
  have h2 := dropTrailing_head? isPyWs _ c h
  have h3 := List.head?_dropWhile_not isPyWs l
  rw [h2] at h3
  exact h3

lemma pyStrip_getLast?_not (l : List Char) (c : Char)
    (h : (pyStrip l).getLast? = some c) : isPyWs c = false :=
  dropTrailing_getLast? isPyWs _ c h

lemma pyStrip_eq_self (l : List Char)
    (hhead : ∀ c, l.head? = some c → isPyWs c = false)
    (hlast : ∀ c, l.getLast? = some c → isPyWs c = false) : pyStrip l = l := by
  unfold pyStrip
  have h1 : l.dropWhile isPyWs = l := by
    cases l with
    | nil => rfl
    | cons c cs =>
      rw [List.dropWhile_cons, hhead c rfl]
      simp
  rw [h1]
  exact dropTrailing_eq_self _ _ hlast

lemma mem_pyStrip {l : List Char} {c : Char} (h : c ∈ pyStrip l) : c ∈ l := by
  unfold pyStrip at h
  exact (List.dropWhile_suffix isPyWs).sublist.subset
    ((dropTrailing_isPrefix isPyWs _).sublist.subset h)

lemma mem_normalize_ne_nbsp (v : List Char) (c : Char) (h : c ∈ normalize_text v) :
    c.toNat ≠ 160 := by
  unfold normalize_text at h
  rcases List.mem_map.mp h with ⟨d, hd, rfl⟩
  apply toLower_ne_nbsp
  have hd2 := mem_pyStrip hd
  rcases mem_collapseAux _ _ _ hd2 with rfl | hd3
  · decide
  · rcases List.mem_map.mp hd3 with ⟨e, _, rfl⟩
    exact nbspToSpace_ne_nbsp e

lemma chunked_normalize (v : List Char) : Chunked (normalize_text v) := by
  unfold normalize_text pyStrip
  apply chunked_map_toLower
  apply chunked_of_isPrefix _ (dropTrailing_isPrefix _ _)
  apply chunked_of_suffix _ (List.dropWhile_suffix _)
  exact chunked_collapse _

lemma normalize_head?_not (v : List Char) (c : Char)
    (h : (normalize_text v).head? = some c) : isPyWs c = false := by
  unfold normalize_text at h
  rw [List.head?_map] at h
  rcases Option.map_eq_some'.mp h with ⟨d, hd, rfl⟩
  rw [isPyWs_toLower]
  exact pyStrip_head?_not _ d hd

lemma normalize_getLast?_not (v : List Char) (c : Char)
    (h : (normalize_text v).getLast? = some c) : isPyWs c = false := by
  unfold normalize_text at h
  rw [List.getLast?_map] at h
  rcases Option.map_eq_some'.mp h with ⟨d, hd, rfl⟩
  rw [isPyWs_toLower]
  exact pyStrip_getLast?_not _ d hd

lemma normalize_map_toLower (v : List Char) :
    (normalize_text v).map Char.toLower = normalize_text v := by
  unfold normalize_text
  rw [List.map_map]
  apply List.map_congr_left
  intro c _
  exact toLower_toLower c

/-- Claim C3: `normalize_text` is idempotent, and maps every input made
only of whitespace characters (the empty string included) to the empty
string. -/
theorem normalize_text_idempotent_and_ws :
    (∀ v : List Char, normalize_text (normalize_text v) = normalize_text v) ∧
    (∀ v : List Char, (∀ c ∈ v, isPyWs c = true) → normalize_text v = []) := by
  constructor
  · intro v
    have h1 : (normalize_text v).map nbspToSpace = normalize_text v := by
      have hmem : ∀ c ∈ normalize_text v, nbspToSpace c = id c := by
        intro c hc
        unfold nbspToSpace
        rw [if_neg (by simpa using mem_normalize_ne_nbsp v c hc)]
        rfl
      rw [List.map_congr_left hmem, List.map_id]
    have h2 : collapseWs (normalize_text v) = normalize_text v :=
      chunked_collapse_id _ (chunked_normalize v)
    have h3 : pyStrip (normalize_text v) = normalize_text v :=
      pyStrip_eq_self _ (normalize_head?_not v) (normalize_getLast?_not v)
    calc normalize_text (normalize_text v)
        = (pyStrip (collapseWs ((normalize_text v).map nbspToSpace))).map Char.toLower :=
          rfl
      _ = (pyStrip (collapseWs (normalize_text v))).map Char.toLower := by rw [h1]
      _ = (pyStrip (normalize_text v)).map Char.toLower := by rw [h2]
      _ = (normalize_text v).map Char.toLower := by rw [h3]
      _ = normalize_text v := normalize_map_toLower v
  · intro v h
    have hx : ∀ c ∈ v.map nbspToSpace, isPyWs c = true := by
      intro c hc
      rcases List.mem_map.mp hc with ⟨d, hd, rfl⟩
      unfold nbspToSpace
      split
      · decide
      · exact h d hd
    have hy : ∀ c ∈ collapseAux false (v.map nbspToSpace), isPyWs c = true := by
      intro c hc
      rcases mem_collapseAux _ _ _ hc with rfl | hc2
      · decide
      · exact hx c hc2
    have hz : (collapseAux false (v.map nbspToSpace)).dropWhile isPyWs = [] :=
      List.dropWhile_eq_nil_iff.mpr (fun x hx2 => hy x hx2)
    unfold normalize_text pyStrip collapseWs
    rw [hz]
    rfl

set_option maxRecDepth 2048 in
theorem normalize_text_idempotent_and_ws_witness :
    (∀ c ∈ [' ', '\n', '\xa0'], isPyWs c = true) ∧
      normalize_text [' ', '\n', '\xa0'] = [] :=
  ⟨by decide, normalize_text_idempotent_and_ws.2 [' ', '\n', '\xa0'] (by decide)⟩
